import Mathlib

/-
  Verification development for the traceit multi-modal origin resolution and
  lineage engine.  The definitions below are shallow embeddings of the Python
  services in backend/app/services (video_pipeline_service.py,
  router_service.py, lineage_service.py): dictionaries become records with the
  dict-access defaults baked in as field defaults, numbers become rationals,
  Python falsiness of optional strings is made explicit, exceptions become
  Except values, and the external collaborators (ffmpeg, S3 upload, RunPod,
  the vector index, Perplexity, Redis, Neo4j) become oracle fields of explicit
  environment records.
-/

set_option maxHeartbeats 1000000

namespace TraceIt

/-- A single candidate hit as the vector / audio services return it:
dictionary keys channel_id (may be missing) and confidence (default 0). -/
structure Hit where
  channel_id : Option String := none
  confidence : Rat := 0
  url : String := ""
  deriving DecidableEq, Repr

/-- Python truthiness of an optional string: None and the empty string are
falsy, every other string is truthy. -/
def truthyStr : Option String → Bool
  | none => false
  | some s => s != ""

/-- The origin part of a branch result
(video_pipeline_service._combine_frame_origins and the audio pipeline):
keys found (default False), confidence (default 0), hit (may be absent),
matching_frames (may be absent, read with default 0), message. -/
structure OriginInfo where
  found : Bool := false
  confidence : Rat := 0
  hit : Option Hit := none
  matching_frames : Option Nat := none
  message : Option String := none
  deriving DecidableEq, Repr

/-- A branch result dictionary as produced by _process_audio_track /
_process_visual_frames: an origin sub-dictionary (may be absent on error
dictionaries), a confidence read with default 0, and an optional error key. -/
structure BranchResult where
  origin : Option OriginInfo := none
  confidence : Rat := 0
  error : Option String := none
  deriving DecidableEq, Repr

/-- Embedding of VideoPipelineService._check_if_composite
(video_pipeline_service.py lines 360-394).  The two arguments model the
audio_result and visual_result dictionaries, with none for Python None. -/
def check_if_composite (audio_result visual_result : Option BranchResult) : Bool :=
  match audio_result, visual_result with
  | some ar, some vr =>
    let audio_origin := ar.origin.getD {}
    let visual_origin := vr.origin.getD {}
    if !audio_origin.found || !visual_origin.found then
      false
    else
      let audio_channel := (audio_origin.hit.getD {}).channel_id
      let visual_channel := (visual_origin.hit.getD {}).channel_id
      if !truthyStr audio_channel || !truthyStr visual_channel then
        false
      else
        (audio_channel != visual_channel) &&
          decide (2 ≤ visual_origin.matching_frames.getD 0)
  | _, _ => false

/-- The origin dictionary of a (possibly missing) branch result, with the
empty-dictionary defaults of the source's .get chains. -/
def originOf (r : Option BranchResult) : OriginInfo :=
  match r with
  | some br => br.origin.getD {}
  | none => {}

/-- The channel id read from an origin's hit sub-dictionary. -/
def channelOf (o : OriginInfo) : Option String :=
  (o.hit.getD {}).channel_id

/- ===================== Lineage engine: engagement scoring ================ -/

/-- Embedding of the CASE expression of the engagement query in
LineageService.build_multi_hop_graph (lineage_service.py lines 478-484). -/
def engagement_score (spread_count : Nat) : Nat :=
  if 100 < spread_count then 5
  else if 50 < spread_count then 4
  else if 20 < spread_count then 3
  else if 5 < spread_count then 2
  else 1

/-- The number of distinct artifacts with an ORIGINATED_FROM relationship to
origin o, over an edge list of (artifact, origin) pairs.  The MERGE in
_store_in_graph keeps at most one such relationship per pair, so the Cypher
row count of the engagement query is the count of distinct artifacts. -/
def spread_count_of (originated_from : List (String × String)) (o : String) : Nat :=
  ((originated_from.filter (fun p => p.2 == o)).map (fun p => p.1)).dedup.length

/-- Per-origin effect of the engagement query: for every origin set
spread_count and engagement_score from the recomputed count. -/
def update_engagement (originated_from : List (String × String)) (origins : List String) :
    List (String × Nat × Nat) :=
  origins.map (fun o =>
    (o, spread_count_of originated_from o, engagement_score (spread_count_of originated_from o)))

/- ===================== Lineage engine: batch control flow ================ -/

/-- Outcomes of the individual Cypher steps of build_multi_hop_graph, each
either a count or a raised exception's message. -/
structure BatchEnv where
  neo4j_enabled : Bool
  spread_plain : Except String Nat
  spread_audio : Except String Nat
  spread_visual : Except String Nat
  artifact_count : Except String Nat
  transitive : Except String Nat
  engagement : Except String Nat

/-- The stats dictionary returned by build_multi_hop_graph; keys that are only
set by later steps are options (none models an absent key). -/
structure BatchStats where
  relationships_created : Nat := 0
  artifacts_processed : Nat := 0
  multi_hop_relationships : Option Nat := none
  origins_updated : Option Nat := none
  status : Option String := none
  error : Option String := none
  reason : Option String := none
  deriving DecidableEq, Repr

/-- Embedding of LineageService.build_multi_hop_graph (lineage_service.py
lines 370-502): the whole step sequence runs inside one try, the except clause
stamps status and error onto whatever stats accumulated so far and returns
them, so a step's exception never escapes. -/
def build_multi_hop_graph (env : BatchEnv) : BatchStats :=
  if !env.neo4j_enabled then
    { status := some "error", reason := some "Neo4j not enabled" }
  else
    match env.spread_plain with
    | .error e => { status := some "error", error := some e }
    | .ok r1 =>
      match env.spread_audio with
      | .error e => { relationships_created := r1, status := some "error", error := some e }
      | .ok r2 =>
        match env.spread_visual with
        | .error e =>
          { relationships_created := r1 + r2, status := some "error", error := some e }
        | .ok r3 =>
          match env.artifact_count with
          | .error e =>
            { relationships_created := r1 + r2 + r3, status := some "error", error := some e }
          | .ok ac =>
            match env.transitive with
            | .error e =>
              { relationships_created := r1 + r2 + r3, artifacts_processed := ac,
                status := some "error", error := some e }
            | .ok t =>
              match env.engagement with
              | .error e =>
                { relationships_created := r1 + r2 + r3 + t, artifacts_processed := ac,
                  multi_hop_relationships := some t, status := some "error", error := some e }
              | .ok u =>
                { relationships_created := r1 + r2 + r3 + t, artifacts_processed := ac,
                  multi_hop_relationships := some t, origins_updated := some u,
                  status := some "success" }

/- ===================== Lineage engine: spread graph ===================== -/

/-- A SPREAD_TO relationship with its hop_count property. -/
structure SEdge where
  src : String
  dst : String
  hop_count : Nat
  deriving DecidableEq, Repr

/-- Directed edge existence, as the pattern EXISTS((a1)-[:SPREAD_TO]->(a3)). -/
def has_edge (edges : List SEdge) (a c : String) : Bool :=
  edges.any (fun e => e.src == a && e.dst == c)

/-- All hop-count sums r1.hop_count + r2.hop_count over two-hop paths
a -> x -> c in the current edge set. -/
def two_hop_sums (edges : List SEdge) (a c : String) : List Nat :=
  (edges.map (fun e1 =>
    edges.filterMap (fun e2 =>
      if e1.src = a ∧ e1.dst = e2.src ∧ e2.dst = c then
        some (e1.hop_count + e2.hop_count)
      else none))).flatten

/-- Minimum of a list of naturals (0 for the empty list; only used on
non-empty lists). -/
def min_list : List Nat → Nat
  | [] => 0
  | h :: t => t.foldl Nat.min h

/-- All artifact ids occurring in the edge set, each once. -/
def nodes_of (edges : List SEdge) : List String :=
  (edges.map (fun e => e.src) ++ edges.map (fun e => e.dst)).dedup

/-- The rows created by the transitive query of build_multi_hop_graph
(lineage_service.py lines 457-466): for every ordered pair a1, a3 of distinct
artifacts joined by some two-hop SPREAD_TO path and not by a direct edge,
one new edge with hop_count the minimum two-hop sum.  The match runs against
the graph as it stood when the statement started. -/
def new_trans_edges (edges : List SEdge) : List SEdge :=
  ((nodes_of edges).map (fun a =>
    (nodes_of edges).filterMap (fun c =>
      if a ≠ c ∧ has_edge edges a c = false ∧ two_hop_sums edges a c ≠ [] then
        some ⟨a, c, min_list (two_hop_sums edges a c)⟩
      else none))).flatten

/-- One execution of the transitive-closure step: the old edges plus the
newly created ones. -/
def transitive_step (edges : List SEdge) : List SEdge :=
  edges ++ new_trans_edges edges

/-- The rows created by the plain shared-origin query (lineage_service.py
lines 396-406): an edge a1 -> a2 with hop_count 1 for every ordered pair of
distinct artifacts sharing an origin and not yet joined by a SPREAD_TO edge
in either direction (the pattern (a1)-[:SPREAD_TO]-(a2) is undirected). -/
def shared_origin_edges (originated_from : List (String × String)) (edges : List SEdge) :
    List SEdge :=
  (originated_from.map (fun p1 =>
    originated_from.filterMap (fun p2 =>
      if p1.2 = p2.2 ∧ p1.1 ≠ p2.1 ∧
          has_edge edges p1.1 p2.1 = false ∧ has_edge edges p2.1 p1.1 = false then
        some ⟨p1.1, p2.1, 1⟩
      else none))).flatten

/-- The plain-edge part of one batch run: base step then transitive step,
each matching against the state the previous step left behind. -/
def batch_edges (originated_from : List (String × String)) (edges : List SEdge) :
    List SEdge :=
  transitive_step (edges ++ shared_origin_edges originated_from edges)

/- ===================== Video pipeline: majority voting =================== -/

/-- One entry of the visual_origins list built by _find_visual_origins: the
frame index, the hits of the vector search for that frame's embedding, and
the search confidence. -/
structure FrameOrigin where
  frame_index : Nat := 0
  hits : List Hit := []
  confidence : Rat := 0
  deriving DecidableEq, Repr

/-- The all_hits list of _combine_frame_origins: the hits of every frame,
concatenated in frame order. -/
def all_hits : List FrameOrigin → List Hit
  | [] => []
  | o :: rest => o.hits ++ all_hits rest

/-- One update of the channel_counts dictionary: increment the count of ch,
inserting it at the end on first sight (Python dictionaries preserve
insertion order). -/
def bump_count (counts : List (String × Nat)) (ch : String) : List (String × Nat) :=
  match counts with
  | [] => [(ch, 1)]
  | (c, n) :: rest =>
    if c = ch then (c, n + 1) :: rest else (c, n) :: bump_count rest ch

/-- One update of the channel_confidence dictionary:
channel_confidence[ch] = max(channel_confidence.get(ch, 0), conf). -/
def bump_conf (confs : List (String × Rat)) (ch : String) (conf : Rat) :
    List (String × Rat) :=
  match confs with
  | [] => [(ch, max 0 conf)]
  | (c, m) :: rest =>
    if c = ch then (c, max m conf) :: rest else (c, m) :: bump_conf rest ch conf

/-- One iteration of the counting loop body: hits without a truthy channel
id are skipped. -/
def count_step (acc : List (String × Nat)) (h : Hit) : List (String × Nat) :=
  if truthyStr h.channel_id then bump_count acc (h.channel_id.getD "") else acc

/-- The channel_counts dictionary after the double loop of
_combine_frame_origins: one increment per hit with a truthy channel_id. -/
def channel_counts (hits : List Hit) : List (String × Nat) :=
  hits.foldl count_step []

/-- One iteration of the confidence loop body. -/
def conf_step (acc : List (String × Rat)) (h : Hit) : List (String × Rat) :=
  if truthyStr h.channel_id then bump_conf acc (h.channel_id.getD "") h.confidence else acc

/-- The channel_confidence dictionary after the same loop. -/
def channel_confidence (hits : List Hit) : List (String × Rat) :=
  hits.foldl conf_step []

/-- One iteration of the best-channel selection loop. -/
def best_step (acc : Option String × Nat) (p : String × Nat) : Option String × Nat :=
  if acc.2 < p.2 then (some p.1, p.2) else acc

/-- The best_channel / best_count selection loop: iterate the counts in
dictionary order and keep the first channel with a strictly larger count. -/
def best_channel_count (counts : List (String × Nat)) : Option String × Nat :=
  counts.foldl best_step (none, 0)

/-- One iteration of the best_hit loop for the winning channel ch. -/
def hit_step (ch : String) (best : Option Hit) (h : Hit) : Option Hit :=
  if h.channel_id == some ch then
    match best with
    | none => some h
    | some b => if b.confidence < h.confidence then some h else best
  else best

/-- The best_hit loop: first hit of the winning channel whose confidence is
strictly larger than the best seen so far. -/
def best_hit_for (hits : List Hit) (ch : String) : Option Hit :=
  hits.foldl (hit_step ch) none

/-- channel_confidence.get(best_channel, 0). -/
def lookup_conf (confs : List (String × Rat)) (ch : String) : Rat :=
  (List.lookup ch confs).getD 0

/-- The low-confidence dictionary _combine_frame_origins returns when no
channel reaches two votes (video_pipeline_service.py lines 333-341). -/
def no_consistent_origin : BranchResult :=
  let o : OriginInfo :=
    { found := false, confidence := 0,
      message := some "No consistent visual origin found across frames" }
  { origin := some o, confidence := 0 }

/-- Embedding of VideoPipelineService._combine_frame_origins
(video_pipeline_service.py lines 294-358). -/
def combine_frame_origins (frame_origins : List FrameOrigin) : BranchResult :=
  let hits := all_hits frame_origins
  let counts := channel_counts hits
  let best := best_channel_count counts
  if best.2 < 2 then
    no_consistent_origin
  else
    match best.1 with
    | some ch =>
      let conf := lookup_conf (channel_confidence hits) ch
      let o : OriginInfo :=
        { found := true, confidence := conf,
          hit := best_hit_for hits ch, matching_frames := some best.2 }
      { origin := some o, confidence := conf }
    | none =>
      no_consistent_origin

/-- Number of hits across all frames carrying the (truthy) channel ch: the
vote count the code actually accumulates, one vote per hit. -/
def hit_votes (frame_origins : List FrameOrigin) (ch : String) : Nat :=
  if ch = "" then 0
  else ((all_hits frame_origins).filter (fun h => h.channel_id == some ch)).length

/-- Number of frames with at least one hit for channel ch: the vote count the
specification describes (one vote per frame).  Used only to compare the
specified counting rule with the implemented one. -/
def frames_voted_for (frame_origins : List FrameOrigin) (ch : String) : Nat :=
  if ch = "" then 0
  else (frame_origins.filter (fun o => o.hits.any (fun h => h.channel_id == some ch))).length

/- ===================== Search router: fallback decision ================== -/

/-- A local similarity hit as VectorService.search_similar_content returns it. -/
structure LocalHit where
  content_hash : String := ""
  content_type : String := ""
  raw_text : String := ""
  source_url : String := ""
  timestamp : Option String := none
  similarity : Rat := 0
  engagement_score : Rat := 0
  channel_id : Option String := none
  deriving DecidableEq, Repr

/-- Python max over the similarities of a non-empty hit list (0 for the empty
list, on which the source never evaluates it). -/
def max_similarity : List LocalHit → Rat
  | [] => 0
  | h :: t => t.foldl (fun a x => max a x.similarity) h.similarity

/-- Embedding of the fallback decision of RouterService.search
(router_service.py lines 57-63): need_perplexity = force or fewer than 3
local hits, then, only when that is still false and hits exist, max
similarity below 0.80. -/
def need_perplexity (force_perplexity : Bool) (local_results : List LocalHit) : Bool :=
  let need := force_perplexity || decide (local_results.length < 3)
  if !need && !local_results.isEmpty then
    decide (max_similarity local_results < (80 : Rat) / 100)
  else
    need

/- ===================== Search router: merge and origins ================= -/

/-- A Perplexity result dictionary, with the .get defaults of the source
(relevance_score and freshness_score default 0.5, engagement_score 0). -/
structure ExtHit where
  url : String := ""
  title : String := ""
  snippet : String := ""
  relevance_score : Rat := 1 / 2
  freshness_score : Rat := 1 / 2
  published_date : Option String := none
  domain : Option String := none
  engagement_score : Rat := 0
  deriving DecidableEq, Repr

/-- An entry of the merged all_results list of RouterService.search.  Local
entries carry content_hash and content_type, Perplexity entries do not. -/
structure RankedResult where
  source : String := ""
  content_hash : Option String := none
  content_type : Option String := none
  text : String := ""
  url : String := ""
  timestamp : Option String := none
  similarity : Rat := 0
  engagement : Rat := 0
  channel_id : Option String := none
  score : Rat := 0
  deriving DecidableEq, Repr

/-- Merge entry built from a local hit (router_service.py lines 79-91):
score = similarity * (1 + 0.2 * engagement_score). -/
def local_to_ranked (r : LocalHit) : RankedResult :=
  { source := "local", content_hash := some r.content_hash,
    content_type := some r.content_type, text := r.raw_text, url := r.source_url,
    timestamp := r.timestamp, similarity := r.similarity,
    engagement := r.engagement_score, channel_id := r.channel_id,
    score := r.similarity * (1 + (2 : Rat) / 10 * r.engagement_score) }

/-- Merge entry built from a Perplexity hit (router_service.py lines 94-115):
score = 0.6 * relevance + 0.4 * freshness. -/
def perplexity_to_ranked (r : ExtHit) : RankedResult :=
  { source := "perplexity", text := r.title ++ "\n" ++ r.snippet, url := r.url,
    timestamp := r.published_date, similarity := r.relevance_score,
    engagement := r.engagement_score, channel_id := r.domain,
    score := (6 : Rat) / 10 * r.relevance_score + (4 : Rat) / 10 * r.freshness_score }

/-- The timestamp string of a merged entry (empty for a missing key; only
compared between entries whose timestamps are truthy). -/
def tsStr (r : RankedResult) : String :=
  r.timestamp.getD ""

/-- The sort key of the origins sort (router_service.py line 154): the
timestamp when truthy, otherwise the sentinel 9999-12-31. -/
def ts_or_sentinel (r : RankedResult) : String :=
  if truthyStr r.timestamp then r.timestamp.getD "" else "9999-12-31"

/-- One update of the sources dictionary (router_service.py lines 149-150):
replace the entry of channel ch exactly when the new result's timestamp is
strictly earlier; insert at the end on first sight. -/
def upd_earliest (sources : List (String × RankedResult)) (ch : String) (r : RankedResult) :
    List (String × RankedResult) :=
  match sources with
  | [] => [(ch, r)]
  | (c, cur) :: rest =>
    if c = ch then
      if tsStr r < tsStr cur then (c, r) :: rest else (c, cur) :: rest
    else
      (c, cur) :: upd_earliest rest ch r

/-- One iteration of the grouping loop body (router_service.py lines
147-150): only results with a truthy channel id and a truthy timestamp take
part. -/
def group_step (sources : List (String × RankedResult)) (r : RankedResult) :
    List (String × RankedResult) :=
  if truthyStr r.channel_id && truthyStr r.timestamp then
    upd_earliest sources (r.channel_id.getD "") r
  else
    sources

/-- The sources dictionary after the grouping loop (router_service.py lines
146-150). -/
def group_sources (results : List RankedResult) : List (String × RankedResult) :=
  results.foldl group_step []

/-- The ascending origins order: sort key comparison on ts_or_sentinel. -/
def origin_le (a b : RankedResult) : Prop :=
  ts_or_sentinel a ≤ ts_or_sentinel b

instance : DecidableRel origin_le := fun a b =>
  inferInstanceAs (Decidable (ts_or_sentinel a ≤ ts_or_sentinel b))

instance : IsTotal RankedResult origin_le :=
  ⟨fun a b => le_total (ts_or_sentinel a) (ts_or_sentinel b)⟩

instance : IsTrans RankedResult origin_le :=
  ⟨fun _ _ _ h1 h2 => le_trans h1 h2⟩

/-- Embedding of step 6 of RouterService.search (router_service.py lines
141-154 together with the truncation origins[:3] of line 165): group by
channel, keep the earliest-timestamped result per channel, sort ascending by
the sentinel key with Python's stable sort, return up to 3. -/
def derive_origins (results : List RankedResult) : List RankedResult :=
  (((group_sources results).map Prod.snd).insertionSort origin_le).take 3

/-- Variant of upd_earliest that follows the specification's words instead of
the code: compare by the sentinel key, so that results with no timestamp are
kept and lose to any timestamped result. -/
def upd_earliest_claimed (sources : List (String × RankedResult)) (ch : String)
    (r : RankedResult) : List (String × RankedResult) :=
  match sources with
  | [] => [(ch, r)]
  | (c, cur) :: rest =>
    if c = ch then
      if ts_or_sentinel r < ts_or_sentinel cur then (c, r) :: rest else (c, cur) :: rest
    else
      (c, cur) :: upd_earliest_claimed rest ch r

/-- Origin derivation as the claim words it (second definition, written from
the specification for comparison with derive_origins): every result with a
channel id is grouped, entries without a timestamp survive and sort last. -/
def derive_origins_claimed (results : List RankedResult) : List RankedResult :=
  (((results.foldl (fun sources r =>
      if truthyStr r.channel_id then
        upd_earliest_claimed sources (r.channel_id.getD "") r
      else
        sources) []).map Prod.snd).insertionSort origin_le).take 3

/- ===================== Search router: full search ======================= -/

/-- Descending stable order on merged scores, matching
all_results.sort(key=score, reverse=True). -/
def score_ge (a b : RankedResult) : Prop :=
  b.score ≤ a.score

instance : DecidableRel score_ge := fun a b =>
  inferInstanceAs (Decidable (b.score ≤ a.score))

instance : IsTotal RankedResult score_ge :=
  ⟨fun a b => le_total b.score a.score⟩

instance : IsTrans RankedResult score_ge :=
  ⟨fun _ _ _ h1 h2 => le_trans h2 h1⟩

/-- External collaborators of one RouterService.search run: what the vector
index returns for the query, and the Perplexity response (none when the
response is falsy or lacks a results key). -/
structure RouterEnv where
  local_results : List LocalHit
  perplexity_data : Option (List ExtHit)

/-- Invocation counters for the router's upstream capabilities. -/
structure RouterCalls where
  vector_search : Nat
  perplexity : Nat
  vector_store : Nat
  deriving DecidableEq, Repr

/-- The response dictionary RouterService.search returns and caches. -/
structure RouterResponse where
  query : String
  query_type : String
  query_hash : String
  perplexity_used : Bool
  results : List RankedResult
  origins : List RankedResult
  confidence : Rat
  deriving DecidableEq, Repr

/-- One run of the router: the response, the cache entry for this query hash
after the run, and the upstream call counts. -/
structure RouterOut where
  response : RouterResponse
  cache_after : Option RouterResponse
  calls : RouterCalls
  deriving DecidableEq, Repr

/-- Confidence of step 7 (router_service.py lines 156-161): mean of the top
3 scores of the sorted merged list, or of all scores when fewer than 3, and
0.0 for an empty list. -/
def router_confidence (sorted_results : List RankedResult) : Rat :=
  if sorted_results.isEmpty then 0
  else
    let top_scores :=
      if 3 ≤ sorted_results.length then (sorted_results.take 3).map (fun r => r.score)
      else sorted_results.map (fun r => r.score)
    top_scores.sum / (top_scores.length : Rat)

/-- Embedding of RouterService.search (router_service.py lines 11-171).
The cached argument is the cache entry stored under this query's hash key;
qh is the hex digest the source computes from the query (the hash itself is
an external primitive).  Exceptions of the best-effort store_embedding writes
are swallowed by the source and do not appear in the result. -/
def router_search (cached : Option RouterResponse) (query query_type qh : String)
    (force_perplexity : Bool) (env : RouterEnv) : RouterOut :=
  match cached with
  | some r => { response := r, cache_after := some r, calls := ⟨0, 0, 0⟩ }
  | none =>
    let local_results := env.local_results
    let need := need_perplexity force_perplexity local_results
    let perplexity_results := if need then env.perplexity_data.getD [] else []
    let perplexity_used := need && env.perplexity_data.isSome
    let all_results :=
      local_results.map local_to_ranked ++ perplexity_results.map perplexity_to_ranked
    let sorted := all_results.insertionSort score_ge
    let origins := derive_origins sorted
    let confidence := router_confidence sorted
    let response : RouterResponse :=
      { query := query, query_type := query_type, query_hash := qh,
        perplexity_used := perplexity_used, results := sorted.take 10,
        origins := origins, confidence := confidence }
    { response := response, cache_after := some response,
      calls :=
        ⟨1, if need then 1 else 0,
          (perplexity_results.filter (fun r => r.snippet != "")).length⟩ }

/- ===================== Video pipeline: branches ========================= -/

/-- External collaborators of _process_audio_track: the extracted audio path
(none when ffmpeg finds no audio track) and the audio pipeline's outcome
(an exception or its result dictionary). -/
structure AudioEnv where
  extract_audio : Option String
  process_audio : Except String BranchResult

/-- Outcome of the audio branch: the result dictionary, the local files it
deleted, and how often the audio pipeline was invoked. -/
structure AudioOut where
  result : BranchResult
  deleted_files : List String
  pipeline_calls : Nat
  deriving DecidableEq, Repr

/-- Embedding of VideoPipelineService._process_audio_track
(video_pipeline_service.py lines 152-184).  The temp audio file is deleted
only on the success path; when process_audio raises, the except clause
returns the error dictionary without reaching the delete call. -/
def process_audio_track (env : AudioEnv) : AudioOut :=
  match env.extract_audio with
  | none =>
    { result := { error := some "No audio track found in video" },
      deleted_files := [], pipeline_calls := 0 }
  | some audio_path =>
    match env.process_audio with
    | .error e =>
      { result := { error := some e }, deleted_files := [], pipeline_calls := 1 }
    | .ok audio_result =>
      { result := audio_result, deleted_files := [audio_path], pipeline_calls := 1 }

/-- The dictionary submit_clip_embedding_job returns. -/
structure SubmitResult where
  success : Bool := false
  runpod_job_id : String := ""
  error : Option String := none
  deriving DecidableEq, Repr

/-- The dictionary wait_for_completion (or get_job_output) returns; the
embeddings are opaque tokens handed on to the vector search. -/
structure WaitResult where
  success : Bool := false
  embeddings : List String := []
  error : Option String := none
  deriving DecidableEq, Repr

/-- The dictionary search_by_embedding returns for one embedding. -/
structure VectorRes where
  hits : List Hit := []
  confidence : Rat := 0
  deriving DecidableEq, Repr

/-- External collaborators of the visual branch: the extracted keyframe
paths (empty on extraction failure), the per-frame upload outcome, the GPU
submit and wait outcomes, and the vector search per embedding. -/
structure VisualEnv where
  keyframes : List String
  upload : String → Option String
  submit : Except String SubmitResult
  wait : Except String WaitResult
  vector_search : String → VectorRes

/-- Embedding of VideoPipelineService._find_visual_origins
(video_pipeline_service.py lines 262-292). -/
def find_visual_origins (vector_search : String → VectorRes) (embeddings : List String) :
    List FrameOrigin :=
  embeddings.enum.map (fun p =>
    { frame_index := p.1, hits := (vector_search p.2).hits,
      confidence := (vector_search p.2).confidence })

/-- Outcome of the visual branch: the result dictionary, the local frame
files deleted by the finally clause, the storage artifacts uploaded, the
storage artifacts deleted (the source has no storage-delete call, so this
list is empty on every path), and the upstream call counts. -/
structure VisualOut where
  result : BranchResult
  deleted_frames : List String
  uploaded_frames : List String
  deleted_uploads : List String
  gpu_submit_calls : Nat
  gpu_wait_calls : Nat
  vector_calls : Nat
  deriving DecidableEq, Repr

/-- Embedding of VideoPipelineService._process_visual_frames
(video_pipeline_service.py lines 186-260).  Every return path runs the
finally clause, which deletes exactly the extracted frame paths; no path
deletes an uploaded artifact, because neither this function nor
utils/file_utils.py contains a storage deletion. -/
def process_visual_frames (env : VisualEnv) : VisualOut :=
  let frame_paths := env.keyframes
  if frame_paths.isEmpty then
    { result := { error := some "Failed to extract frames from video" },
      deleted_frames := frame_paths, uploaded_frames := [], deleted_uploads := [],
      gpu_submit_calls := 0, gpu_wait_calls := 0, vector_calls := 0 }
  else
    let frame_urls := frame_paths.filterMap env.upload
    if frame_urls.isEmpty then
      { result := { error := some "Failed to upload frames for processing" },
        deleted_frames := frame_paths, uploaded_frames := frame_urls,
        deleted_uploads := [], gpu_submit_calls := 0, gpu_wait_calls := 0,
        vector_calls := 0 }
    else
      match env.submit with
      | .error e =>
        { result := { error := some e },
          deleted_frames := frame_paths, uploaded_frames := frame_urls,
          deleted_uploads := [], gpu_submit_calls := 1, gpu_wait_calls := 0,
          vector_calls := 0 }
      | .ok batch_job =>
        if !batch_job.success then
          { result := { error := some "Failed to submit GPU batch job" },
            deleted_frames := frame_paths, uploaded_frames := frame_urls,
            deleted_uploads := [], gpu_submit_calls := 1, gpu_wait_calls := 0,
            vector_calls := 0 }
        else
          match env.wait with
          | .error e =>
            { result := { error := some e },
              deleted_frames := frame_paths, uploaded_frames := frame_urls,
              deleted_uploads := [], gpu_submit_calls := 1, gpu_wait_calls := 1,
              vector_calls := 0 }
          | .ok job_result =>
            if !job_result.success then
              { result := { error := some "GPU batch job failed or timed out" },
                deleted_frames := frame_paths, uploaded_frames := frame_urls,
                deleted_uploads := [], gpu_submit_calls := 1, gpu_wait_calls := 1,
                vector_calls := 0 }
            else
              let embeddings := job_result.embeddings
              if embeddings.isEmpty then
                { result := { error := some "No embeddings returned from GPU job" },
                  deleted_frames := frame_paths, uploaded_frames := frame_urls,
                  deleted_uploads := [], gpu_submit_calls := 1, gpu_wait_calls := 1,
                  vector_calls := 0 }
              else
                let visual_origins := find_visual_origins env.vector_search embeddings
                { result := combine_frame_origins visual_origins,
                  deleted_frames := frame_paths, uploaded_frames := frame_urls,
                  deleted_uploads := [], gpu_submit_calls := 1, gpu_wait_calls := 1,
                  vector_calls := embeddings.length }

/- ===================== Video pipeline: process_video ==================== -/

/-- The final result dictionary of process_video (video_pipeline_service.py
lines 106-119). -/
structure VideoResult where
  job_id : String
  metadata : String
  audio_origin : Option OriginInfo
  visual_origin : Option OriginInfo
  is_composite : Bool
  audio_confidence : Rat
  visual_confidence : Rat
  hash : String
  deriving DecidableEq, Repr

/-- The shapes of the dictionaries process_video can return: the missing
source error, a download failure, the except-clause error carrying the job
id, a cache hit wrapped with from_cache, or the computed result. -/
inductive PipeResult where
  | missing_source
  | download_failed (url : String)
  | err (job_id : String) (msg : String)
  | err_plain (msg : String)
  | cached (job_id : String) (r : VideoResult)
  | ok (r : VideoResult)
  deriving DecidableEq, Repr

/-- External collaborators of one process_video run: the download outcome,
the metadata and hash subroutines (each may raise, caught by the outer
except), the cache entry under video:hash, and the two branch environments. -/
structure PipelineEnv where
  download : Option String
  metadata : Except String String
  video_hash : Except String String
  cache_entry : Option VideoResult
  audio : AudioEnv
  visual : VisualEnv

/-- Observable outcome of one process_video run.  cleanup_files is the
temp_files list the finally clause iterates; deleted_files collects every
delete_file_if_exists argument of the whole run. -/
structure PipeOut where
  result : PipeResult
  cache_after : Option VideoResult
  cleanup_files : List String
  deleted_files : List String
  uploaded_frames : List String
  deleted_uploads : List String
  vector_calls : Nat
  gpu_submit_calls : Nat
  audio_calls : Nat
  deriving Repr

/-- Embedding of VideoPipelineService.process_video (video_pipeline_service.py
lines 41-150).  A file passed through file_path is never appended to
temp_files; only a downloaded file is, and the finally clause deletes exactly
temp_files. -/
def process_video (file_path url : Option String) (job_id : String) (env : PipelineEnv) :
    PipeOut :=
  if file_path.isNone && url.isNone then
    { result := .missing_source, cache_after := env.cache_entry, cleanup_files := [],
      deleted_files := [], uploaded_frames := [], deleted_uploads := [],
      vector_calls := 0, gpu_submit_calls := 0, audio_calls := 0 }
  else
    let dl : Option (String × List String) :=
      match file_path with
      | some p => some (p, [])
      | none =>
        match env.download with
        | none => none
        | some p => some (p, [p])
    match dl with
    | none =>
      { result := .download_failed (url.getD ""), cache_after := env.cache_entry,
        cleanup_files := [], deleted_files := [], uploaded_frames := [],
        deleted_uploads := [], vector_calls := 0, gpu_submit_calls := 0,
        audio_calls := 0 }
    | some (_path, temp_files) =>
      match env.metadata with
      | .error e =>
        { result := .err job_id e, cache_after := env.cache_entry,
          cleanup_files := temp_files, deleted_files := temp_files,
          uploaded_frames := [], deleted_uploads := [], vector_calls := 0,
          gpu_submit_calls := 0, audio_calls := 0 }
      | .ok md =>
        match env.video_hash with
        | .error e =>
          { result := .err job_id e, cache_after := env.cache_entry,
            cleanup_files := temp_files, deleted_files := temp_files,
            uploaded_frames := [], deleted_uploads := [], vector_calls := 0,
            gpu_submit_calls := 0, audio_calls := 0 }
        | .ok h =>
          match env.cache_entry with
          | some cached_result =>
            { result := .cached job_id cached_result, cache_after := env.cache_entry,
              cleanup_files := temp_files, deleted_files := temp_files,
              uploaded_frames := [], deleted_uploads := [], vector_calls := 0,
              gpu_submit_calls := 0, audio_calls := 0 }
          | none =>
            let audio_out := process_audio_track env.audio
            let visual_out := process_visual_frames env.visual
            let audio_result := audio_out.result
            let visual_result := visual_out.result
            let is_composite := check_if_composite (some audio_result) (some visual_result)
            let result : VideoResult :=
              { job_id := job_id, metadata := md,
                audio_origin := audio_result.origin,
                visual_origin := visual_result.origin,
                is_composite := is_composite,
                audio_confidence := audio_result.confidence,
                visual_confidence := visual_result.confidence, hash := h }
            { result := .ok result, cache_after := some result,
              cleanup_files := temp_files,
              deleted_files := audio_out.deleted_files ++ visual_out.deleted_frames
                ++ temp_files,
              uploaded_frames := visual_out.uploaded_frames,
              deleted_uploads := visual_out.deleted_uploads,
              vector_calls := visual_out.vector_calls,
              gpu_submit_calls := visual_out.gpu_submit_calls,
              audio_calls := audio_out.pipeline_calls }

/- ============== Video pipeline: process_video_with_progress ============= -/

/-- Outcome of the GPU polling loop of process_video_with_progress
(video_pipeline_service.py lines 555-581), abstracted to its exit condition:
a COMPLETED status, a FAILED status, or the 300 second timeout elapsing. -/
inductive PollOutcome where
  | completed
  | failed
  | timed_out
  deriving DecidableEq, Repr

/-- External collaborators of one process_video_with_progress run. -/
structure ProgressEnv where
  download : Option String
  metadata : Except String String
  video_hash : Except String String
  cache_entry : Option VideoResult
  audio : AudioEnv
  keyframes : List String
  upload : String → Option String
  submit : Except String SubmitResult
  poll : PollOutcome
  job_output : Except String WaitResult
  vector_search : String → VectorRes

/-- Observable outcome of one process_video_with_progress run.  The progress
trace records the (status, percent) pairs of the _update_progress calls in
order, with the looping same-percent GPU poll snapshots abstracted away.
This variant contains no delete call for the extracted frame paths, so
deleted_files can only contain audio files and temp_files entries. -/
structure ProgressOut where
  result : PipeResult
  cache_after : Option VideoResult
  cleanup_files : List String
  deleted_files : List String
  uploaded_frames : List String
  deleted_uploads : List String
  progress_trace : List (String × Nat)
  vector_calls : Nat
  gpu_submit_calls : Nat
  audio_calls : Nat
  deriving Repr

/-- Embedding of VideoPipelineService.process_video_with_progress
(video_pipeline_service.py lines 447-673). -/
def process_video_with_progress (file_path url : Option String) (job_id : String)
    (env : ProgressEnv) : ProgressOut :=
  if file_path.isNone && url.isNone then
    { result := .missing_source, cache_after := env.cache_entry, cleanup_files := [],
      deleted_files := [], uploaded_frames := [], deleted_uploads := [],
      progress_trace := [], vector_calls := 0, gpu_submit_calls := 0, audio_calls := 0 }
  else
    let t0 : List (String × Nat) := [("starting", 0)]
    let base (res : PipeResult) (tf : List String) (trace : List (String × Nat))
        (dels : List String) (ups : List String) (vc gc ac : Nat) : ProgressOut :=
      { result := res, cache_after := env.cache_entry, cleanup_files := tf,
        deleted_files := dels, uploaded_frames := ups, deleted_uploads := [],
        progress_trace := trace, vector_calls := vc, gpu_submit_calls := gc,
        audio_calls := ac }
    let dl : Option (String × List String × List (String × Nat)) :=
      match file_path with
      | some p => some (p, [], t0)
      | none =>
        match env.download with
        | none => none
        | some p => some (p, [p], t0 ++ [("downloading", 5)])
    match dl with
    | none =>
      base (.download_failed (url.getD "")) []
        (t0 ++ [("downloading", 5), ("error", 0)]) [] [] 0 0 0
    | some (_path, temp_files, tr1) =>
      let tr2 := tr1 ++ [("metadata", 10)]
      match env.metadata with
      | .error e => base (.err job_id e) temp_files (tr2 ++ [("error", 0)]) temp_files [] 0 0 0
      | .ok md =>
        let tr3 := tr2 ++ [("hashing", 15)]
        match env.video_hash with
        | .error e => base (.err job_id e) temp_files (tr3 ++ [("error", 0)]) temp_files [] 0 0 0
        | .ok h =>
          match env.cache_entry with
          | some cached_result =>
            base (.cached job_id cached_result) temp_files
              (tr3 ++ [("complete", 100)]) temp_files [] 0 0 0
          | none =>
            let audio_out := process_audio_track env.audio
            let audio_result := audio_out.result
            let tr4 := tr3 ++ [("audio_processing", 20)] ++
              (if audio_result.error.isSome then [("audio_warning", 35)]
               else [("audio_complete", 40)])
            let tr5 := tr4 ++ [("extracting_frames", 45)]
            let frame_paths := env.keyframes
            if frame_paths.isEmpty then
              base (.err_plain "Failed to extract frames from video") temp_files
                (tr5 ++ [("error", 45)]) (audio_out.deleted_files ++ temp_files) []
                0 0 audio_out.pipeline_calls
            else
              let tr6 := tr5 ++ [("uploading_frames", 50)]
              let frame_urls := frame_paths.filterMap env.upload
              if frame_urls.isEmpty then
                base (.err_plain "Failed to upload frames for processing") temp_files
                  (tr6 ++ [("error", 50)]) (audio_out.deleted_files ++ temp_files)
                  frame_urls 0 0 audio_out.pipeline_calls
              else
                let tr7 := tr6 ++ [("gpu_job_submit", 55)]
                match env.submit with
                | .error e =>
                  base (.err job_id e) temp_files (tr7 ++ [("error", 0)])
                    (audio_out.deleted_files ++ temp_files) frame_urls
                    0 1 audio_out.pipeline_calls
                | .ok batch_job =>
                  if !batch_job.success then
                    base (.err_plain "Failed to submit GPU batch job") temp_files
                      (tr7 ++ [("error", 55)]) (audio_out.deleted_files ++ temp_files)
                      frame_urls 0 1 audio_out.pipeline_calls
                  else
                    let tr8 := tr7 ++ [("gpu_job_processing", 60)]
                    match env.poll with
                    | .failed =>
                      base (.err_plain "GPU batch job failed") temp_files
                        (tr8 ++ [("error", 60)]) (audio_out.deleted_files ++ temp_files)
                        frame_urls 0 1 audio_out.pipeline_calls
                    | .timed_out =>
                      base (.err_plain "GPU batch job timed out") temp_files
                        (tr8 ++ [("error", 65)]) (audio_out.deleted_files ++ temp_files)
                        frame_urls 0 1 audio_out.pipeline_calls
                    | .completed =>
                      let tr9 := tr8 ++ [("getting_gpu_results", 70)]
                      match env.job_output with
                      | .error e =>
                        base (.err job_id e) temp_files (tr9 ++ [("error", 0)])
                          (audio_out.deleted_files ++ temp_files) frame_urls
                          0 1 audio_out.pipeline_calls
                      | .ok job_result =>
                        if !job_result.success then
                          base (.err_plain "Failed to get GPU job results") temp_files
                            (tr9 ++ [("error", 70)])
                            (audio_out.deleted_files ++ temp_files) frame_urls
                            0 1 audio_out.pipeline_calls
                        else
                          let tr10 := tr9 ++ [("processing_embeddings", 75)]
                          let embeddings := job_result.embeddings
                          if embeddings.isEmpty then
                            base (.err_plain "No embeddings returned from GPU job")
                              temp_files (tr10 ++ [("error", 75)])
                              (audio_out.deleted_files ++ temp_files) frame_urls
                              0 1 audio_out.pipeline_calls
                          else
                            let visual_origins :=
                              find_visual_origins env.vector_search embeddings
                            let visual_result := combine_frame_origins visual_origins
                            let is_composite :=
                              check_if_composite (some audio_result) (some visual_result)
                            let result : VideoResult :=
                              { job_id := job_id, metadata := md,
                                audio_origin :=
                                  if audio_result.error.isSome then none
                                  else audio_result.origin,
                                visual_origin :=
                                  if visual_result.error.isSome then none
                                  else visual_result.origin,
                                is_composite := is_composite,
                                audio_confidence :=
                                  if audio_result.error.isSome then 0
                                  else audio_result.confidence,
                                visual_confidence :=
                                  if visual_result.error.isSome then 0
                                  else visual_result.confidence,
                                hash := h }
                            { result := .ok result, cache_after := some result,
                              cleanup_files := temp_files,
                              deleted_files := audio_out.deleted_files ++ temp_files,
                              uploaded_frames := frame_urls, deleted_uploads := [],
                              progress_trace := tr10 ++
                                [("finding_visual_origins", 80), ("combining_origins", 85),
                                 ("checking_composite", 90), ("preparing_result", 95),
                                 ("complete", 100)],
                              vector_calls := embeddings.length, gpu_submit_calls := 1,
                              audio_calls := audio_out.pipeline_calls }

/- ===================== Concrete example environments =================== -/

/-- An audio branch result on channel_A, as in the spec's composite test. -/
def audio_chan_a : BranchResult :=
  let hit : Hit := { channel_id := some "channel_A", confidence := 85 / 100 }
  let o : OriginInfo := { found := true, confidence := 85 / 100, hit := some hit }
  { origin := some o, confidence := 85 / 100 }

/-- A visual branch result on channel_B with 3 matching frames. -/
def visual_chan_b : BranchResult :=
  let hit : Hit := { channel_id := some "channel_B", confidence := 92 / 100 }
  let o : OriginInfo :=
    { found := true, confidence := 92 / 100, hit := some hit,
      matching_frames := some 3 }
  { origin := some o, confidence := 92 / 100 }

/-- A concrete batch environment whose visual step raises after the first two
steps created 3 and 2 relationships. -/
def batch_env_fail_visual : BatchEnv :=
  { neo4j_enabled := true, spread_plain := .ok 3, spread_audio := .ok 2,
    spread_visual := .error "connection reset", artifact_count := .ok 7,
    transitive := .ok 4, engagement := .ok 9 }

/-- Two local hits with similarities 0.9 and 0.85, as in the spec's router
fallback test. -/
def two_local_hits : List LocalHit :=
  [{ similarity := 9 / 10 }, { similarity := 85 / 100 }]

/-- Hits of a list carrying channel ch (the per-hit vote count before the
truthiness guard). -/
def votes (hits : List Hit) (ch : String) : Nat :=
  (hits.filter (fun h => h.channel_id == some ch)).length

/-- Reference lookup into an association list of counts. -/
def count_val : List (String × Nat) → String → Nat
  | [], _ => 0
  | (k, n) :: t, ch => if k = ch then n else count_val t ch

/-- Reference lookup into an association list of confidences. -/
def conf_val : List (String × Rat) → String → Rat
  | [], _ => 0
  | (k, v) :: t, ch => if k = ch then v else conf_val t ch

/-- The found-origin dictionary _combine_frame_origins returns for a winning
hit hb with n matching hits. -/
def found_origin (hb : Hit) (n : Nat) : BranchResult :=
  let o : OriginInfo :=
    { found := true, confidence := hb.confidence, hit := some hb,
      matching_frames := some n }
  { origin := some o, confidence := hb.confidence }

/-- A single frame whose vector search returned two hits on the same
channel. -/
def one_frame_two_hits : List FrameOrigin :=
  [{ frame_index := 0,
     hits := [{ channel_id := some "chanA", confidence := 1 },
              { channel_id := some "chanA", confidence := 0 }] }]

/-- The loop invariant of the origin-grouping fold: unique keys, every
processed truthy result is covered by a key, and each entry is the first
earliest-timestamped result of its channel among the processed results. -/
def group_inv (processed : List RankedResult) (S : List (String × RankedResult)) : Prop :=
  (S.map Prod.fst).Nodup ∧
  (∀ r ∈ processed, truthyStr r.channel_id = true → truthyStr r.timestamp = true →
      r.channel_id.getD "" ∈ S.map Prod.fst) ∧
  (∀ p ∈ S,
      p.2.channel_id = some p.1 ∧ p.1 ≠ "" ∧ truthyStr p.2.timestamp = true ∧
      (∃ P1 P2, processed = P1 ++ p.2 :: P2 ∧
        (∀ r ∈ P1, r.channel_id = some p.1 → truthyStr r.timestamp = true →
          tsStr p.2 < tsStr r)) ∧
      (∀ r ∈ processed, r.channel_id = some p.1 → truthyStr r.timestamp = true →
        tsStr p.2 ≤ tsStr r))

/-- A merged result with a channel id but no timestamp. -/
def no_ts_result : RankedResult :=
  { channel_id := some "channelA" }

/-- Spec's channel-earliest example entries. -/
def chan_a_feb : RankedResult :=
  { channel_id := some "A", timestamp := some "2023-02-01" }

/-- Second spec entry: channel A, January. -/
def chan_a_jan : RankedResult :=
  { channel_id := some "A", timestamp := some "2023-01-01" }

/-- Third spec entry: channel B, March. -/
def chan_b_mar : RankedResult :=
  { channel_id := some "B", timestamp := some "2023-03-01" }

/-- A pipeline environment whose GPU job yields three frame embeddings, so
that the vector index is queried three times in a single resolution. -/
def three_embedding_env : PipelineEnv :=
  { download := none, metadata := .ok "meta", video_hash := .ok "hash1",
    cache_entry := none,
    audio := { extract_audio := some "aud1", process_audio := .ok {} },
    visual :=
      { keyframes := ["f1", "f2", "f3"],
        upload := fun _ => some "u1",
        submit := .ok { success := true, runpod_job_id := "rp1" },
        wait := .ok { success := true, embeddings := ["e1", "e2", "e3"] },
        vector_search := fun _ => {} } }

/-- A visual environment whose single frame uploads successfully before the
GPU submission is rejected. -/
def upload_then_fail_env : VisualEnv :=
  { keyframes := ["frame1.jpg"],
    upload := fun _ => some "uploaded1",
    submit := .ok { success := false, error := some "quota exceeded" },
    wait := .ok {},
    vector_search := fun _ => {} }

/-- A progress environment whose run reaches the GPU-submission failure after
extracting and uploading a frame. -/
def progress_fail_env : ProgressEnv :=
  { download := none, metadata := .ok "meta", video_hash := .ok "hash1",
    cache_entry := none,
    audio := { extract_audio := some "aud1", process_audio := .ok {} },
    keyframes := ["frame1.jpg"],
    upload := fun _ => some "uploaded1",
    submit := .ok { success := false, error := some "quota exceeded" },
    poll := .completed,
    job_output := .ok {},
    vector_search := fun _ => {} }

/-- A pipeline environment with a successful download oracle. -/
def download_env : PipelineEnv :=
  { download := some "downloaded.mp4", metadata := .ok "meta",
    video_hash := .ok "hash1", cache_entry := none,
    audio := { extract_audio := none, process_audio := .ok {} },
    visual :=
      { keyframes := [], upload := fun _ => none, submit := .ok {},
        wait := .ok {}, vector_search := fun _ => {} } }

/- ========================= Theorems: claim C1 =========================== -/

/-- C1: composite detection.  The video is marked composite exactly when both
branch results are present, both origins are found, both channel ids are
truthy and differ, and the visual origin's matching_frames is at least 2;
whenever either branch result is missing, not found, or lacks a channel id,
the result is the boolean false (the function is total, so no error is
possible). -/
theorem check_if_composite_correct (a v : Option BranchResult) :
    (check_if_composite a v = true ↔
      (a.isSome = true ∧ v.isSome = true ∧
        (originOf a).found = true ∧ (originOf v).found = true ∧
        truthyStr (channelOf (originOf a)) = true ∧
        truthyStr (channelOf (originOf v)) = true ∧
        channelOf (originOf a) ≠ channelOf (originOf v) ∧
        2 ≤ (originOf v).matching_frames.getD 0))
    ∧ ((a = none ∨ v = none ∨ (originOf a).found = false ∨ (originOf v).found = false ∨
          truthyStr (channelOf (originOf a)) = false ∨
          truthyStr (channelOf (originOf v)) = false) →
        check_if_composite a v = false) := by
  have hiff : check_if_composite a v = true ↔
      (a.isSome = true ∧ v.isSome = true ∧
        (originOf a).found = true ∧ (originOf v).found = true ∧
        truthyStr (channelOf (originOf a)) = true ∧
        truthyStr (channelOf (originOf v)) = true ∧
        channelOf (originOf a) ≠ channelOf (originOf v) ∧
        2 ≤ (originOf v).matching_frames.getD 0) := by
    cases a with
    | none => simp [check_if_composite]
    | some ar =>
      cases v with
      | none => simp [check_if_composite]
      | some vr =>
        simp only [check_if_composite, originOf, channelOf, Option.isSome_some]
        by_cases hfa : (ar.origin.getD {}).found <;>
          by_cases hfv : (vr.origin.getD {}).found <;>
            simp only [hfa, hfv, Bool.not_true, Bool.not_false, Bool.false_or,
              Bool.or_false, Bool.true_or, Bool.or_true, if_true, if_false] <;>
          try simp
        by_cases hca : truthyStr ((ar.origin.getD {}).hit.getD {}).channel_id <;>
          by_cases hcv : truthyStr ((vr.origin.getD {}).hit.getD {}).channel_id <;>
            simp [hca, hcv, bne_iff_ne]
  refine ⟨hiff, ?_⟩
  intro hmiss
  cases hcc : check_if_composite a v with
  | false => rfl
  | true =>
    exfalso
    obtain ⟨h1, h2, h3, h4, h5, h6, _, _⟩ := hiff.mp hcc
    rcases hmiss with h | h | h | h | h | h
    · rw [h] at h1; simp at h1
    · rw [h] at h2; simp at h2
    · rw [h3] at h; simp at h
    · rw [h4] at h; simp at h
    · rw [h5] at h; simp at h
    · rw [h6] at h; simp at h

/-- C1 witness: the characterization applied at the spec's true case, audio
channel_A against visual channel_B with matching_frames 3. -/
theorem check_if_composite_correct_witness :
    check_if_composite (some audio_chan_a) (some visual_chan_b) = true :=
  (check_if_composite_correct (some audio_chan_a) (some visual_chan_b)).1.mpr (by decide)

/- ========================= Theorems: claim C7 =========================== -/

/-- C7: engagement bucketing.  The batch's engagement step assigns each
origin spread_count, the number of distinct artifacts pointing at it, and an
engagement_score with thresholds spread_count greater than 100, 50, 20, 5
mapping to 5, 4, 3, 2 and everything else to 1; the boundary values 100, 50,
20 and 5 land in the next lower bucket. -/
theorem engagement_bucketing_correct :
    (∀ (originated_from : List (String × String)) (origins : List String)
        (o : String) (sc es : Nat),
        (o, sc, es) ∈ update_engagement originated_from origins →
        sc = spread_count_of originated_from o ∧
        es = engagement_score (spread_count_of originated_from o))
  ∧ (∀ (originated_from : List (String × String)) (o a : String),
        (a ∈ ((originated_from.filter (fun p => p.2 == o)).map (fun p => p.1)).dedup ↔
          (a, o) ∈ originated_from))
  ∧ (∀ (originated_from : List (String × String)) (o : String),
        ((originated_from.filter (fun p => p.2 == o)).map (fun p => p.1)).dedup.Nodup)
  ∧ (∀ n, 100 < n → engagement_score n = 5)
  ∧ (∀ n, 50 < n → n ≤ 100 → engagement_score n = 4)
  ∧ (∀ n, 20 < n → n ≤ 50 → engagement_score n = 3)
  ∧ (∀ n, 5 < n → n ≤ 20 → engagement_score n = 2)
  ∧ (∀ n, n ≤ 5 → engagement_score n = 1)
  ∧ engagement_score 101 = 5 ∧ engagement_score 51 = 4 ∧ engagement_score 21 = 3
  ∧ engagement_score 6 = 2 ∧ engagement_score 1 = 1
  ∧ engagement_score 100 = 4 ∧ engagement_score 50 = 3 ∧ engagement_score 20 = 2
  ∧ engagement_score 5 = 1 := by
  refine ⟨?_, ?_, ?_, ?_, ?_, ?_, ?_, ?_, ?_, ?_, ?_, ?_, ?_, ?_, ?_, ?_, ?_⟩
  · intro OF origins o sc es hmem
    simp only [update_engagement, List.mem_map, Prod.mk.injEq] at hmem
    obtain ⟨o2, _, rfl, hsc, hes⟩ := hmem
    exact ⟨hsc.symm, hes.symm⟩
  · intro OF o a
    simp only [List.mem_dedup, List.mem_map, List.mem_filter, beq_iff_eq]
    constructor
    · rintro ⟨p, ⟨hp, hpo⟩, rfl⟩
      have : p = (p.1, o) := by
        cases p; simp only at hpo; simp [hpo]
      rw [this] at hp; exact hp
    · intro hmem
      exact ⟨(a, o), ⟨hmem, rfl⟩, rfl⟩
  · intro OF o
    exact List.nodup_dedup _
  · intro n hn; simp [engagement_score, hn]
  · intro n h1 h2; simp only [engagement_score]; split_ifs <;> omega
  · intro n h1 h2; simp only [engagement_score]; split_ifs <;> omega
  · intro n h1 h2; simp only [engagement_score]; split_ifs <;> omega
  · intro n h1; simp only [engagement_score]; split_ifs <;> omega
  · rfl
  · rfl
  · rfl
  · rfl
  · rfl
  · rfl
  · rfl
  · rfl
  · rfl

/-- C7 witness: the characterization applied at a concrete two-artifact
origin with the per-origin effect evaluated. -/
theorem engagement_bucketing_correct_witness :
    spread_count_of [("art1", "orig1"), ("art2", "orig1")] "orig1" = 2 ∧
    engagement_score 101 = 5 ∧ engagement_score 100 = 4 :=
  ⟨by decide, engagement_bucketing_correct.2.2.2.2.2.2.2.2.1,
    engagement_bucketing_correct.2.2.2.2.2.2.2.2.2.2.2.2.2.1⟩

/- ========================= Theorems: claim C8 =========================== -/

/-- C8: lineage batch partial failure.  With the graph store enabled, the
batch function is total over every combination of step outcomes: a step's
exception is converted into a stats report whose counters are exactly those
accumulated by the steps that completed before the failure, with status error
and the exception's message in the error field; when every step succeeds the
report carries all counters and status success.  The returned status is
always success or error, and an error status always carries an error
message. -/
theorem build_multi_hop_graph_partial_failure (env : BatchEnv)
    (henabled : env.neo4j_enabled = true) :
    (∀ e, env.spread_plain = .error e →
        build_multi_hop_graph env = { status := some "error", error := some e })
  ∧ (∀ r1 e, env.spread_plain = .ok r1 → env.spread_audio = .error e →
        build_multi_hop_graph env =
          { relationships_created := r1, status := some "error", error := some e })
  ∧ (∀ r1 r2 e, env.spread_plain = .ok r1 → env.spread_audio = .ok r2 →
        env.spread_visual = .error e →
        build_multi_hop_graph env =
          { relationships_created := r1 + r2, status := some "error", error := some e })
  ∧ (∀ r1 r2 r3 e, env.spread_plain = .ok r1 → env.spread_audio = .ok r2 →
        env.spread_visual = .ok r3 → env.artifact_count = .error e →
        build_multi_hop_graph env =
          { relationships_created := r1 + r2 + r3, status := some "error",
            error := some e })
  ∧ (∀ r1 r2 r3 ac e, env.spread_plain = .ok r1 → env.spread_audio = .ok r2 →
        env.spread_visual = .ok r3 → env.artifact_count = .ok ac →
        env.transitive = .error e →
        build_multi_hop_graph env =
          { relationships_created := r1 + r2 + r3, artifacts_processed := ac,
            status := some "error", error := some e })
  ∧ (∀ r1 r2 r3 ac t e, env.spread_plain = .ok r1 → env.spread_audio = .ok r2 →
        env.spread_visual = .ok r3 → env.artifact_count = .ok ac →
        env.transitive = .ok t → env.engagement = .error e →
        build_multi_hop_graph env =
          { relationships_created := r1 + r2 + r3 + t, artifacts_processed := ac,
            multi_hop_relationships := some t, status := some "error",
            error := some e })
  ∧ (∀ r1 r2 r3 ac t u, env.spread_plain = .ok r1 → env.spread_audio = .ok r2 →
        env.spread_visual = .ok r3 → env.artifact_count = .ok ac →
        env.transitive = .ok t → env.engagement = .ok u →
        build_multi_hop_graph env =
          { relationships_created := r1 + r2 + r3 + t, artifacts_processed := ac,
            multi_hop_relationships := some t, origins_updated := some u,
            status := some "success" })
  ∧ ((build_multi_hop_graph env).status = some "success" ∨
      ((build_multi_hop_graph env).status = some "error" ∧
        (build_multi_hop_graph env).error.isSome = true)) := by
  refine ⟨?_, ?_, ?_, ?_, ?_, ?_, ?_, ?_⟩
  · intro e h1; simp [build_multi_hop_graph, henabled, h1]
  · intro r1 e h1 h2; simp [build_multi_hop_graph, henabled, h1, h2]
  · intro r1 r2 e h1 h2 h3; simp [build_multi_hop_graph, henabled, h1, h2, h3]
  · intro r1 r2 r3 e h1 h2 h3 h4
    simp [build_multi_hop_graph, henabled, h1, h2, h3, h4]
  · intro r1 r2 r3 ac e h1 h2 h3 h4 h5
    simp [build_multi_hop_graph, henabled, h1, h2, h3, h4, h5]
  · intro r1 r2 r3 ac t e h1 h2 h3 h4 h5 h6
    simp [build_multi_hop_graph, henabled, h1, h2, h3, h4, h5, h6]
  · intro r1 r2 r3 ac t u h1 h2 h3 h4 h5 h6
    simp [build_multi_hop_graph, henabled, h1, h2, h3, h4, h5, h6]
  · simp only [build_multi_hop_graph, henabled, Bool.not_true, Bool.false_eq_true,
      if_false]
    cases env.spread_plain with
    | error e => right; simp
    | ok r1 =>
      cases env.spread_audio with
      | error e => right; simp
      | ok r2 =>
        cases env.spread_visual with
        | error e => right; simp
        | ok r3 =>
          cases env.artifact_count with
          | error e => right; simp
          | ok ac =>
            cases env.transitive with
            | error e => right; simp
            | ok t =>
              cases env.engagement with
              | error e => right; simp
              | ok u => left; simp

/-- C8 witness: the partial-failure characterization applied at a concrete
environment whose third step raises. -/
theorem build_multi_hop_graph_partial_failure_witness :
    build_multi_hop_graph batch_env_fail_visual =
      { relationships_created := 5, status := some "error",
        error := some "connection reset" } :=
  (build_multi_hop_graph_partial_failure batch_env_fail_visual rfl).2.2.1
    3 2 "connection reset" rfl rfl rfl

/- ========================= Theorems: claim C3 =========================== -/

theorem foldl_max_sim_init (t : List LocalHit) (a : Rat) :
    a ≤ t.foldl (fun b x => max b x.similarity) a := by
  induction t generalizing a with
  | nil => exact le_refl a
  | cons y t ih => exact le_trans (le_max_left a y.similarity) (ih (max a y.similarity))

theorem foldl_max_sim_mem (t : List LocalHit) (a : Rat) (x : LocalHit) (hx : x ∈ t) :
    x.similarity ≤ t.foldl (fun b y => max b y.similarity) a := by
  induction t generalizing a with
  | nil => cases hx
  | cons y t ih =>
    rcases List.mem_cons.mp hx with rfl | hx
    · exact le_trans (le_max_right a x.similarity) (foldl_max_sim_init t _)
    · exact ih _ hx

theorem max_similarity_ge (l : List LocalHit) (x : LocalHit) (hx : x ∈ l) :
    x.similarity ≤ max_similarity l := by
  cases l with
  | nil => cases hx
  | cons h t =>
    rcases List.mem_cons.mp hx with rfl | hx
    · exact foldl_max_sim_init t x.similarity
    · exact foldl_max_sim_mem t h.similarity x hx

/-- C3: router fallback decision.  On an uncached query, the external search
fallback is invoked exactly when force_perplexity is set, or fewer than 3
local hits were returned, or the maximum local similarity is below 0.80; in
particular 2 local hits always trigger the fallback, and 3 local hits all
with similarity at least 0.80 never do unless forced. -/
theorem need_perplexity_correct :
    (∀ (force : Bool) (locals : List LocalHit),
        (need_perplexity force locals = true ↔
          (force = true ∨ locals.length < 3 ∨
            max_similarity locals < (80 : Rat) / 100)))
  ∧ (∀ (force : Bool) (locals : List LocalHit), locals.length = 2 →
        need_perplexity force locals = true)
  ∧ (∀ locals : List LocalHit, locals.length = 3 →
        (∀ hit ∈ locals, (80 : Rat) / 100 ≤ hit.similarity) →
        need_perplexity false locals = false)
  ∧ (∀ (query query_type qh : String) (force : Bool) (env : RouterEnv),
        ((router_search none query query_type qh force env).calls.perplexity = 1 ↔
          need_perplexity force env.local_results = true)) := by
  have hiff : ∀ (force : Bool) (locals : List LocalHit),
      (need_perplexity force locals = true ↔
        (force = true ∨ locals.length < 3 ∨
          max_similarity locals < (80 : Rat) / 100)) := by
    intro force locals
    by_cases hf : force = true
    · simp [need_perplexity, hf]
    · replace hf : force = false := by
        cases force
        · rfl
        · exact absurd rfl hf
      by_cases hlen : locals.length < 3
      · simp [need_perplexity, hf, hlen]
      · have hne : locals.isEmpty = false := by
          cases locals
          · exact absurd (by simp) hlen
          · rfl
        simp [need_perplexity, hf, hlen, hne]
  refine ⟨hiff, ?_, ?_, ?_⟩
  · intro force locals hlen
    exact (hiff force locals).mpr (Or.inr (Or.inl (by omega)))
  · intro locals hlen hsim
    cases hnp : need_perplexity false locals with
    | false => rfl
    | true =>
      exfalso
      rcases (hiff false locals).mp hnp with h | h | h
      · exact Bool.false_ne_true h
      · omega
      · cases locals with
        | nil => simp at hlen
        | cons x t =>
          have hx : (80 : Rat) / 100 ≤ x.similarity := hsim x (List.mem_cons_self x t)
          have hmax := max_similarity_ge (x :: t) x (List.mem_cons_self x t)
          exact absurd h (not_lt.mpr (le_trans hx hmax))
  · intro query query_type qh force env
    by_cases hnp : need_perplexity force env.local_results = true
    · simp [router_search, hnp]
    · simp only [Bool.not_eq_true] at hnp
      simp [router_search, hnp]

/-- C3 witness: the decision characterization applied at the two concrete
hit lists of the spec's fallback test. -/
theorem need_perplexity_correct_witness :
    need_perplexity false two_local_hits = true ∧
    need_perplexity false
      [{ similarity := 9 / 10 }, { similarity := 85 / 100 }, { similarity := 8 / 10 }]
      = false :=
  ⟨need_perplexity_correct.2.1 false two_local_hits (by decide),
    need_perplexity_correct.2.2.1
      [{ similarity := 9 / 10 }, { similarity := 85 / 100 }, { similarity := 8 / 10 }]
      (by decide) (by intro hit hmem; fin_cases hmem <;> norm_num)⟩

/- ========================= Theorems: claim C6 =========================== -/

theorem mem_two_hop_sums (edges : List SEdge) (a c : String) (s : Nat) :
    s ∈ two_hop_sums edges a c ↔
      ∃ e1 ∈ edges, ∃ e2 ∈ edges,
        e1.src = a ∧ e1.dst = e2.src ∧ e2.dst = c ∧ s = e1.hop_count + e2.hop_count := by
  simp only [two_hop_sums]
  constructor
  · intro hs
    rcases List.mem_flatten.mp hs with ⟨l, hl, hsl⟩
    rcases List.mem_map.mp hl with ⟨e1, he1, rfl⟩
    rcases List.mem_filterMap.mp hsl with ⟨e2, he2, hif⟩
    by_cases hc : e1.src = a ∧ e1.dst = e2.src ∧ e2.dst = c
    · rw [if_pos hc] at hif
      exact ⟨e1, he1, e2, he2, hc.1, hc.2.1, hc.2.2, (Option.some_inj.mp hif).symm⟩
    · rw [if_neg hc] at hif
      cases hif
  · rintro ⟨e1, he1, e2, he2, h1, h2, h3, rfl⟩
    refine List.mem_flatten.mpr ⟨_, List.mem_map_of_mem _ he1, ?_⟩
    exact List.mem_filterMap.mpr ⟨e2, he2, by rw [if_pos ⟨h1, h2, h3⟩]⟩

theorem foldl_min_le_init (t : List Nat) (a : Nat) : t.foldl Nat.min a ≤ a := by
  induction t generalizing a with
  | nil => exact le_refl a
  | cons y t ih => exact le_trans (ih (Nat.min a y)) (Nat.min_le_left a y)

theorem foldl_min_le_mem (t : List Nat) (a x : Nat) (hx : x ∈ t) :
    t.foldl Nat.min a ≤ x := by
  induction t generalizing a with
  | nil => cases hx
  | cons y t ih =>
    rcases List.mem_cons.mp hx with rfl | hx
    · exact le_trans (foldl_min_le_init t (Nat.min a x)) (Nat.min_le_right a x)
    · exact ih _ hx

theorem min_list_le (l : List Nat) (x : Nat) (hx : x ∈ l) : min_list l ≤ x := by
  cases l with
  | nil => cases hx
  | cons h t =>
    rcases List.mem_cons.mp hx with rfl | hx
    · exact foldl_min_le_init t x
    · exact foldl_min_le_mem t h x hx

theorem foldl_min_mem (t : List Nat) (a : Nat) :
    t.foldl Nat.min a = a ∨ t.foldl Nat.min a ∈ t := by
  induction t generalizing a with
  | nil => exact Or.inl rfl
  | cons y t ih =>
    simp only [List.foldl_cons]
    rcases ih (Nat.min a y) with h | h
    · rcases Nat.le_total a y with hay | hya
      · left; rw [h]; exact Nat.min_eq_left hay
      · right
        have hmin : Nat.min a y = y := Nat.min_eq_right hya
        rw [h, hmin]
        exact List.mem_cons_self y t
    · right; exact List.mem_cons_of_mem y h

theorem min_list_mem (l : List Nat) (h : l ≠ []) : min_list l ∈ l := by
  cases l with
  | nil => exact absurd rfl h
  | cons x t =>
    rcases foldl_min_mem t x with h1 | h1
    · exact List.mem_cons.mpr (Or.inl h1)
    · exact List.mem_cons.mpr (Or.inr h1)

theorem mem_nodes_of_src (edges : List SEdge) (e : SEdge) (he : e ∈ edges) :
    e.src ∈ nodes_of edges := by
  simp only [nodes_of, List.mem_dedup, List.mem_append, List.mem_map]
  exact Or.inl ⟨e, he, rfl⟩

theorem mem_nodes_of_dst (edges : List SEdge) (e : SEdge) (he : e ∈ edges) :
    e.dst ∈ nodes_of edges := by
  simp only [nodes_of, List.mem_dedup, List.mem_append, List.mem_map]
  exact Or.inr ⟨e, he, rfl⟩

theorem mem_new_trans_edges (edges : List SEdge) (a c : String)
    (hne : a ≠ c) (hno : has_edge edges a c = false)
    (hpath : two_hop_sums edges a c ≠ []) :
    SEdge.mk a c (min_list (two_hop_sums edges a c)) ∈ new_trans_edges edges := by
  have ha : a ∈ nodes_of edges := by
    cases hl : two_hop_sums edges a c with
    | nil => exact absurd hl hpath
    | cons s t =>
      have hs : s ∈ two_hop_sums edges a c := by rw [hl]; exact List.mem_cons_self s t
      obtain ⟨e1, he1, _, _, h1, _, _, _⟩ := (mem_two_hop_sums edges a c s).mp hs
      exact h1 ▸ mem_nodes_of_src edges e1 he1
  have hc : c ∈ nodes_of edges := by
    cases hl : two_hop_sums edges a c with
    | nil => exact absurd hl hpath
    | cons s t =>
      have hs : s ∈ two_hop_sums edges a c := by rw [hl]; exact List.mem_cons_self s t
      obtain ⟨_, _, e2, he2, _, _, h3, _⟩ := (mem_two_hop_sums edges a c s).mp hs
      exact h3 ▸ mem_nodes_of_dst edges e2 he2
  simp only [new_trans_edges, List.mem_flatten, List.mem_map]
  refine ⟨_, ⟨a, ha, rfl⟩, ?_⟩
  simp only [List.mem_filterMap]
  exact ⟨c, hc, by rw [if_pos ⟨hne, hno, hpath⟩]⟩

/-- C6: spread-graph transitive step.  Whenever edges a to b and b to c exist
and no direct a to c edge does, one batch run whose base step creates no new
edges adds an edge a to c whose hop_count is the minimum two-hop sum over all
a to c paths (and that minimum is 2 whenever all hop counts are at least 1
and the given pair both have hop count 1); on the concrete two-edge state of
the specification, one run creates exactly a to c with hop count 2 and a
second run creates nothing further. -/
theorem transitive_step_correct :
    (∀ (originated_from : List (String × String)) (edges : List SEdge) (e1 e2 : SEdge),
        e1 ∈ edges → e2 ∈ edges → e1.dst = e2.src → e1.src ≠ e2.dst →
        has_edge edges e1.src e2.dst = false →
        shared_origin_edges originated_from edges = [] →
        (SEdge.mk e1.src e2.dst (min_list (two_hop_sums edges e1.src e2.dst)) ∈
            batch_edges originated_from edges
          ∧ (e1.hop_count + e2.hop_count) ∈ two_hop_sums edges e1.src e2.dst
          ∧ (∀ s ∈ two_hop_sums edges e1.src e2.dst,
              min_list (two_hop_sums edges e1.src e2.dst) ≤ s)
          ∧ ((∀ e ∈ edges, 1 ≤ e.hop_count) → e1.hop_count = 1 → e2.hop_count = 1 →
              min_list (two_hop_sums edges e1.src e2.dst) = 2)))
  ∧ batch_edges [] [⟨"a", "b", 1⟩, ⟨"b", "c", 1⟩] =
      [⟨"a", "b", 1⟩, ⟨"b", "c", 1⟩, ⟨"a", "c", 2⟩]
  ∧ batch_edges [] [⟨"a", "b", 1⟩, ⟨"b", "c", 1⟩, ⟨"a", "c", 2⟩] =
      [⟨"a", "b", 1⟩, ⟨"b", "c", 1⟩, ⟨"a", "c", 2⟩] := by
  refine ⟨?_, by decide, by decide⟩
  intro OF edges e1 e2 he1 he2 hmid hne hno hbase
  have hsum : (e1.hop_count + e2.hop_count) ∈ two_hop_sums edges e1.src e2.dst :=
    (mem_two_hop_sums edges e1.src e2.dst _).mpr
      ⟨e1, he1, e2, he2, rfl, hmid, rfl, rfl⟩
  have hpath : two_hop_sums edges e1.src e2.dst ≠ [] := by
    intro hnil; rw [hnil] at hsum; cases hsum
  have hbe : batch_edges OF edges = transitive_step edges := by
    rw [batch_edges, hbase, List.append_nil]
  refine ⟨?_, hsum, ?_, ?_⟩
  · rw [hbe, transitive_step]
    exact List.mem_append.mpr (Or.inr (mem_new_trans_edges edges e1.src e2.dst hne hno hpath))
  · intro s hs; exact min_list_le _ s hs
  · intro hall h1 h2
    have hle : min_list (two_hop_sums edges e1.src e2.dst) ≤ 2 := by
      have := min_list_le _ _ hsum; omega
    have hge : 2 ≤ min_list (two_hop_sums edges e1.src e2.dst) := by
      have hm := min_list_mem _ hpath
      obtain ⟨f1, hf1, f2, hf2, _, _, _, heq⟩ :=
        (mem_two_hop_sums edges e1.src e2.dst _).mp hm
      have := hall f1 hf1
      have := hall f2 hf2
      omega
    omega

/-- C6 witness: the general creation part applied at the concrete two-edge
state of the specification's test. -/
theorem transitive_step_correct_witness :
    SEdge.mk "a" "c"
        (min_list (two_hop_sums [⟨"a", "b", 1⟩, ⟨"b", "c", 1⟩] "a" "c")) ∈
      batch_edges [] [⟨"a", "b", 1⟩, ⟨"b", "c", 1⟩] ∧
    min_list (two_hop_sums [⟨"a", "b", 1⟩, ⟨"b", "c", 1⟩] "a" "c") = 2 := by
  have h := transitive_step_correct.1 [] [⟨"a", "b", 1⟩, ⟨"b", "c", 1⟩]
    ⟨"a", "b", 1⟩ ⟨"b", "c", 1⟩ (by decide) (by decide) (by decide) (by decide)
    (by decide) (by decide)
  exact ⟨h.1, h.2.2.2 (by decide) rfl rfl⟩

/- ========================= Theorems: claim C2 =========================== -/

theorem truthy_channel_eq (o : Option String) (h : truthyStr o = true) :
    o = some (o.getD "") ∧ o.getD "" ≠ "" := by
  cases o with
  | none => cases h
  | some s =>
    refine ⟨rfl, ?_⟩
    simp only [truthyStr, bne_iff_ne] at h
    simpa using h

theorem count_val_bump (acc : List (String × Nat)) (c ch : String) :
    count_val (bump_count acc c) ch =
      if ch = c then count_val acc ch + 1 else count_val acc ch := by
  induction acc with
  | nil =>
    by_cases hch : ch = c
    · subst hch; simp [bump_count, count_val]
    · have hcch : ¬ c = ch := fun h => hch h.symm
      simp [bump_count, count_val, hch, hcch]
  | cons p t ih =>
    obtain ⟨k, n⟩ := p
    by_cases hk : k = c
    · simp only [bump_count, if_pos hk]
      by_cases hch : ch = c
      · have hkch : k = ch := hk.trans hch.symm
        simp [count_val, hkch, hch]
      · have hkch : ¬ k = ch := fun h => hch ((hk.symm.trans h).symm)
        simp [count_val, hkch, hch]
    · simp only [bump_count, if_neg hk]
      by_cases hkch : k = ch
      · have hchc : ¬ ch = c := fun h => hk (hkch.trans h)
        simp [count_val, hkch, hchc]
      · simp [count_val, hkch, ih]

theorem count_val_fold (hits : List Hit) (acc : List (String × Nat)) (ch : String)
    (hch : ch ≠ "") :
    count_val (hits.foldl count_step acc) ch = count_val acc ch + votes hits ch := by
  induction hits generalizing acc with
  | nil => simp [votes]
  | cons h t ih =>
    simp only [List.foldl_cons]
    by_cases hhit : h.channel_id = some ch
    · have htr : truthyStr h.channel_id = true := by
        rw [hhit]; simp [truthyStr]; exact hch
      have hgetd : h.channel_id.getD "" = ch := by rw [hhit]; rfl
      rw [ih (count_step acc h)]
      have hstep : count_step acc h = bump_count acc ch := by
        rw [count_step, if_pos htr, hgetd]
      rw [hstep, count_val_bump, if_pos rfl]
      have hv : votes (h :: t) ch = votes t ch + 1 := by
        simp [votes, List.filter_cons, hhit]
      omega
    · have hv : votes (h :: t) ch = votes t ch := by
        simp only [votes, List.filter_cons]
        rw [if_neg (by simpa using hhit)]
      rw [ih (count_step acc h), hv]
      by_cases htr : truthyStr h.channel_id = true
      · have hgetd : h.channel_id.getD "" ≠ ch := by
          intro heq
          exact hhit (((truthy_channel_eq _ htr).1).trans (by rw [heq]))
        have hstep : count_step acc h = bump_count acc (h.channel_id.getD "") := by
          rw [count_step, if_pos htr]
        rw [hstep, count_val_bump, if_neg (fun heq => hgetd heq.symm)]
      · have hstep : count_step acc h = acc := by
          rw [count_step, if_neg (by simpa using htr)]
        rw [hstep]

theorem count_val_channel_counts (hits : List Hit) (ch : String) (hch : ch ≠ "") :
    count_val (channel_counts hits) ch = votes hits ch := by
  rw [channel_counts, count_val_fold hits [] ch hch]
  simp [count_val]

theorem bump_count_keys (acc : List (String × Nat)) (ch : String) :
    (bump_count acc ch).map Prod.fst =
      if ch ∈ acc.map Prod.fst then acc.map Prod.fst
      else acc.map Prod.fst ++ [ch] := by
  induction acc with
  | nil => simp [bump_count]
  | cons p t ih =>
    obtain ⟨k, n⟩ := p
    by_cases hk : k = ch
    · subst hk; simp [bump_count]
    · have hne : ch ≠ k := fun h => hk h.symm
      by_cases hmem : ch ∈ t.map Prod.fst
      · simp [bump_count, hk, ih, hmem, hne]
      · simp [bump_count, hk, ih, hmem, hne]

theorem count_keys_inv (hits : List Hit) (acc : List (String × Nat))
    (hnd : (acc.map Prod.fst).Nodup) (htr : ∀ c ∈ acc.map Prod.fst, c ≠ "") :
    ((hits.foldl count_step acc).map Prod.fst).Nodup ∧
      (∀ c ∈ (hits.foldl count_step acc).map Prod.fst, c ≠ "") := by
  induction hits generalizing acc with
  | nil => exact ⟨hnd, htr⟩
  | cons h t ih =>
    simp only [List.foldl_cons]
    by_cases htrc : truthyStr h.channel_id = true
    · have hstep : count_step acc h = bump_count acc (h.channel_id.getD "") := by
        rw [count_step, if_pos htrc]
      have hgd : h.channel_id.getD "" ≠ "" := (truthy_channel_eq _ htrc).2
      rw [hstep]
      refine ih (bump_count acc (h.channel_id.getD "")) ?_ ?_
      · rw [bump_count_keys]
        by_cases hmem : h.channel_id.getD "" ∈ acc.map Prod.fst
        · rw [if_pos hmem]; exact hnd
        · rw [if_neg hmem, List.nodup_append]
          refine ⟨hnd, List.nodup_singleton _, ?_⟩
          intro a ha hamem
          rw [List.mem_singleton] at hamem
          subst hamem
          exact hmem ha
      · rw [bump_count_keys]
        by_cases hmem : h.channel_id.getD "" ∈ acc.map Prod.fst
        · rw [if_pos hmem]; exact htr
        · rw [if_neg hmem]
          intro c hc
          rcases List.mem_append.mp hc with hc1 | hc1
          · exact htr c hc1
          · rw [List.mem_singleton.mp hc1]; exact hgd
    · have hstep : count_step acc h = acc := by
        rw [count_step, if_neg (by simpa using htrc)]
      rw [hstep]
      exact ih acc hnd htr

theorem count_val_of_mem (counts : List (String × Nat))
    (hnd : (counts.map Prod.fst).Nodup) (c : String) (n : Nat)
    (hm : (c, n) ∈ counts) : count_val counts c = n := by
  induction counts with
  | nil => cases hm
  | cons p t ih =>
    obtain ⟨k, v⟩ := p
    simp only [List.map_cons, List.nodup_cons] at hnd
    rcases List.mem_cons.mp hm with heq | hm2
    · injection heq with h1 h2
      subst h1; subst h2
      simp [count_val]
    · by_cases hk : k = c
      · subst hk
        exfalso
        exact hnd.1 (List.mem_map.mpr ⟨(k, n), hm2, rfl⟩)
      · simp only [count_val, if_neg hk]
        exact ih hnd.2 hm2

theorem mem_of_count_val_pos (counts : List (String × Nat)) (ch : String)
    (h : 1 ≤ count_val counts ch) : (ch, count_val counts ch) ∈ counts := by
  induction counts with
  | nil => simp [count_val] at h
  | cons p t ih =>
    obtain ⟨k, v⟩ := p
    by_cases hk : k = ch
    · subst hk
      simp only [count_val, if_pos rfl] at h ⊢
      exact List.mem_cons_self _ _
    · simp only [count_val, if_neg hk] at h ⊢
      exact List.mem_cons_of_mem _ (ih h)

theorem best_fold_ge_init (counts : List (String × Nat)) (acc : Option String × Nat) :
    acc.2 ≤ (counts.foldl best_step acc).2 := by
  induction counts generalizing acc with
  | nil => exact le_refl _
  | cons p t ih =>
    simp only [List.foldl_cons]
    refine le_trans ?_ (ih (best_step acc p))
    rw [best_step]
    split
    · next hlt => exact le_of_lt hlt
    · exact le_refl _

theorem best_fold_ge_mem (counts : List (String × Nat)) (acc : Option String × Nat)
    (p : String × Nat) (hp : p ∈ counts) :
    p.2 ≤ (counts.foldl best_step acc).2 := by
  induction counts generalizing acc with
  | nil => cases hp
  | cons q t ih =>
    simp only [List.foldl_cons]
    rcases List.mem_cons.mp hp with rfl | hp2
    · refine le_trans ?_ (best_fold_ge_init t (best_step acc p))
      rw [best_step]
      split
      · exact le_refl _
      · next hnlt => exact Nat.le_of_not_lt hnlt
    · exact ih (best_step acc q) hp2

theorem best_fold_cases (counts : List (String × Nat)) (acc : Option String × Nat) :
    counts.foldl best_step acc = acc ∨
      ∃ p ∈ counts, counts.foldl best_step acc = (some p.1, p.2) := by
  induction counts generalizing acc with
  | nil => exact Or.inl rfl
  | cons q t ih =>
    simp only [List.foldl_cons]
    rcases ih (best_step acc q) with h | ⟨p, hp, h⟩
    · rw [h, best_step]
      split
      · exact Or.inr ⟨q, List.mem_cons_self q t, rfl⟩
      · exact Or.inl rfl
    · exact Or.inr ⟨p, List.mem_cons_of_mem q hp, h⟩

theorem conf_val_bump (acc : List (String × Rat)) (c ch : String) (x : Rat) :
    conf_val (bump_conf acc c x) ch =
      if ch = c then max (conf_val acc ch) x else conf_val acc ch := by
  induction acc with
  | nil =>
    by_cases hch : ch = c
    · subst hch; simp [bump_conf, conf_val]
    · have hcch : ¬ c = ch := fun h => hch h.symm
      simp [bump_conf, conf_val, hch, hcch]
  | cons p t ih =>
    obtain ⟨k, v⟩ := p
    by_cases hk : k = c
    · simp only [bump_conf, if_pos hk]
      by_cases hch : ch = c
      · have hkch : k = ch := hk.trans hch.symm
        simp [conf_val, hkch, hch]
      · have hkch : ¬ k = ch := fun h => hch ((hk.symm.trans h).symm)
        simp [conf_val, hkch, hch]
    · simp only [bump_conf, if_neg hk]
      by_cases hkch : k = ch
      · have hchc : ¬ ch = c := fun h => hk (hkch.trans h)
        simp [conf_val, hkch, hchc]
      · simp [conf_val, hkch, ih]

theorem conf_val_fold (hits : List Hit) (acc : List (String × Rat)) (ch : String)
    (hch : ch ≠ "") :
    conf_val (hits.foldl conf_step acc) ch =
      (hits.filter (fun h => h.channel_id == some ch)).foldl
        (fun a h => max a h.confidence) (conf_val acc ch) := by
  induction hits generalizing acc with
  | nil => simp
  | cons h t ih =>
    simp only [List.foldl_cons]
    by_cases hhit : h.channel_id = some ch
    · have htr : truthyStr h.channel_id = true := by
        rw [hhit]; simp [truthyStr]; exact hch
      have hgetd : h.channel_id.getD "" = ch := by rw [hhit]; rfl
      have hstep : conf_step acc h = bump_conf acc ch h.confidence := by
        rw [conf_step, if_pos htr, hgetd]
      rw [ih (conf_step acc h), hstep]
      have hfil : (h :: t).filter (fun x => x.channel_id == some ch) =
          h :: t.filter (fun x => x.channel_id == some ch) := by
        simp [List.filter_cons, hhit]
      rw [hfil, List.foldl_cons, conf_val_bump, if_pos rfl]
    · have hfil : (h :: t).filter (fun x => x.channel_id == some ch) =
          t.filter (fun x => x.channel_id == some ch) := by
        simp only [List.filter_cons]
        rw [if_neg (by simpa using hhit)]
      rw [ih (conf_step acc h), hfil]
      by_cases htr : truthyStr h.channel_id = true
      · have hgetd : h.channel_id.getD "" ≠ ch := by
          intro heq
          exact hhit (((truthy_channel_eq _ htr).1).trans (by rw [heq]))
        have hstep : conf_step acc h = bump_conf acc (h.channel_id.getD "") h.confidence := by
          rw [conf_step, if_pos htr]
        rw [hstep, conf_val_bump, if_neg (fun heq => hgetd heq.symm)]
      · have hstep : conf_step acc h = acc := by
          rw [conf_step, if_neg (by simpa using htr)]
        rw [hstep]

theorem conf_val_channel_confidence (hits : List Hit) (ch : String) (hch : ch ≠ "") :
    conf_val (channel_confidence hits) ch =
      (hits.filter (fun h => h.channel_id == some ch)).foldl
        (fun a h => max a h.confidence) 0 := by
  rw [channel_confidence, conf_val_fold hits [] ch hch]
  rfl

theorem lookup_conf_eq_conf_val (confs : List (String × Rat)) (ch : String) :
    lookup_conf confs ch = conf_val confs ch := by
  induction confs with
  | nil => rfl
  | cons p t ih =>
    obtain ⟨k, v⟩ := p
    by_cases hk : k = ch
    · simp [lookup_conf, List.lookup, conf_val, hk]
    · have hbeq : (ch == k) = false := by
        simp only [beq_eq_false_iff_ne, ne_eq]
        exact fun h => hk h.symm
      simp only [lookup_conf, List.lookup, hbeq, conf_val, if_neg hk]
      exact ih

theorem foldl_max_conf_init (t : List Hit) (a : Rat) :
    a ≤ t.foldl (fun b x => max b x.confidence) a := by
  induction t generalizing a with
  | nil => exact le_refl a
  | cons y t ih => exact le_trans (le_max_left a y.confidence) (ih (max a y.confidence))

theorem foldl_max_conf_mem (t : List Hit) (a : Rat) (x : Hit) (hx : x ∈ t) :
    x.confidence ≤ t.foldl (fun b y => max b y.confidence) a := by
  induction t generalizing a with
  | nil => cases hx
  | cons y t ih =>
    rcases List.mem_cons.mp hx with rfl | hx
    · exact le_trans (le_max_right a x.confidence) (foldl_max_conf_init t _)
    · exact ih _ hx

theorem foldl_max_conf_le (t : List Hit) (a ub : Rat) (ha : a ≤ ub)
    (hall : ∀ x ∈ t, x.confidence ≤ ub) :
    t.foldl (fun b y => max b y.confidence) a ≤ ub := by
  induction t generalizing a with
  | nil => exact ha
  | cons y t ih =>
    refine ih (max a y.confidence) (max_le ha ?_) ?_
    · exact hall y (List.mem_cons_self y t)
    · intro x hx; exact hall x (List.mem_cons_of_mem y hx)

theorem exists_hit_of_votes_pos (hits : List Hit) (ch : String)
    (h : 1 ≤ votes hits ch) : ∃ x ∈ hits, x.channel_id = some ch := by
  rw [votes] at h
  cases hf : hits.filter (fun x => x.channel_id == some ch) with
  | nil => rw [hf] at h; simp at h
  | cons x t =>
    have hx : x ∈ hits.filter (fun y => y.channel_id == some ch) := by
      rw [hf]; exact List.mem_cons_self x t
    obtain ⟨hmem, hpred⟩ := List.mem_filter.mp hx
    exact ⟨x, hmem, by simpa using hpred⟩

theorem best_hit_fold (ch : String) (t : List Hit) (acc : Option Hit) :
    (t.foldl (hit_step ch) acc = acc ∧
      ∀ h ∈ t, h.channel_id = some ch →
        ∃ b, acc = some b ∧ h.confidence ≤ b.confidence)
    ∨ (∃ b, t.foldl (hit_step ch) acc = some b ∧ b ∈ t ∧ b.channel_id = some ch ∧
        (∀ h ∈ t, h.channel_id = some ch → h.confidence ≤ b.confidence) ∧
        (∀ b0, acc = some b0 → b0.confidence ≤ b.confidence)) := by
  induction t generalizing acc with
  | nil => exact Or.inl ⟨rfl, by intro h hm; cases hm⟩
  | cons h t ih =>
    simp only [List.foldl_cons]
    by_cases hw : h.channel_id = some ch
    · have hbeq : (h.channel_id == some ch) = true := by simpa using hw
      cases hacc : acc with
      | none =>
        have hstep : hit_step ch none h = some h := by simp [hit_step, hbeq]
        rw [hstep]
        rcases ih (some h) with ⟨heq, hforall⟩ | ⟨b, heq, hbmem, hbw, hmax, hup⟩
        · right
          refine ⟨h, heq, List.mem_cons_self h t, hw, ?_, ?_⟩
          · intro x hx hxw
            rcases List.mem_cons.mp hx with rfl | hx2
            · exact le_refl _
            · obtain ⟨b, hb, hle⟩ := hforall x hx2 hxw
              injection hb with hb
              exact hb ▸ hle
          · intro b0 hb0; cases hb0
        · right
          refine ⟨b, heq, List.mem_cons_of_mem h hbmem, hbw, ?_, ?_⟩
          · intro x hx hxw
            rcases List.mem_cons.mp hx with rfl | hx2
            · exact hup x rfl
            · exact hmax x hx2 hxw
          · intro b0 hb0; cases hb0
      | some a0 =>
        by_cases hlt : a0.confidence < h.confidence
        · have hstep : hit_step ch (some a0) h = some h := by
            simp [hit_step, hbeq, hlt]
          rw [hstep]
          rcases ih (some h) with ⟨heq, hforall⟩ | ⟨b, heq, hbmem, hbw, hmax, hup⟩
          · right
            refine ⟨h, heq, List.mem_cons_self h t, hw, ?_, ?_⟩
            · intro x hx hxw
              rcases List.mem_cons.mp hx with rfl | hx2
              · exact le_refl _
              · obtain ⟨b, hb, hle⟩ := hforall x hx2 hxw
                injection hb with hb
                exact hb ▸ hle
            · intro b0 hb0
              injection hb0 with hb0
              exact hb0 ▸ le_of_lt hlt
          · right
            refine ⟨b, heq, List.mem_cons_of_mem h hbmem, hbw, ?_, ?_⟩
            · intro x hx hxw
              rcases List.mem_cons.mp hx with rfl | hx2
              · exact hup x rfl
              · exact hmax x hx2 hxw
            · intro b0 hb0
              injection hb0 with hb0
              exact le_trans (hb0 ▸ le_of_lt hlt) (hup h rfl)
        · have hstep : hit_step ch (some a0) h = some a0 := by
            simp [hit_step, hbeq, hlt]
          rw [hstep]
          rcases ih (some a0) with ⟨heq, hforall⟩ | ⟨b, heq, hbmem, hbw, hmax, hup⟩
          · left
            refine ⟨heq, ?_⟩
            intro x hx hxw
            rcases List.mem_cons.mp hx with rfl | hx2
            · exact ⟨a0, rfl, not_lt.mp hlt⟩
            · exact hforall x hx2 hxw
          · right
            refine ⟨b, heq, List.mem_cons_of_mem h hbmem, hbw, ?_, ?_⟩
            · intro x hx hxw
              rcases List.mem_cons.mp hx with rfl | hx2
              · exact le_trans (not_lt.mp hlt) (hup a0 rfl)
              · exact hmax x hx2 hxw
            · intro b0 hb0
              injection hb0 with hb0
              exact hb0 ▸ hup a0 rfl
    · have hbeq : (h.channel_id == some ch) = false := by simpa using hw
      have hstep : hit_step ch acc h = acc := by
        simp [hit_step, hbeq]
      rw [hstep]
      rcases ih acc with ⟨heq, hforall⟩ | ⟨b, heq, hbmem, hbw, hmax, hup⟩
      · left
        refine ⟨heq, ?_⟩
        intro x hx hxw
        rcases List.mem_cons.mp hx with rfl | hx2
        · exact absurd hxw hw
        · exact hforall x hx2 hxw
      · right
        refine ⟨b, heq, List.mem_cons_of_mem h hbmem, hbw, ?_, hup⟩
        intro x hx hxw
        rcases List.mem_cons.mp hx with rfl | hx2
        · exact absurd hxw hw
        · exact hmax x hx2 hxw

theorem hit_votes_eq (frame_origins : List FrameOrigin) (ch : String) (hch : ch ≠ "") :
    hit_votes frame_origins ch = votes (all_hits frame_origins) ch := by
  rw [hit_votes, if_neg hch, votes]

/-- C2 (amended): majority voting counts hits, not frames.  For every
frame-origin list whose hit confidences are non-negative: when every channel
collects at most one hit across all frames, the combiner returns the
not-found dictionary with confidence 0; when some channel collects at least
2 hits, there is a winning channel w of maximal hit count and a hit hb of w,
a highest-confidence hit of w, such that the combiner returns found = true,
hit hb, confidence the maximum hit confidence of w, and matching_frames the
hit count of w. -/
theorem combine_frame_origins_correct (frame_origins : List FrameOrigin)
    (hconf : ∀ h ∈ all_hits frame_origins, 0 ≤ h.confidence) :
    ((∀ ch, hit_votes frame_origins ch ≤ 1) →
        combine_frame_origins frame_origins = no_consistent_origin)
  ∧ (∀ ch0, 2 ≤ hit_votes frame_origins ch0 →
      ∃ w hb,
        2 ≤ hit_votes frame_origins w ∧
        (∀ ch, hit_votes frame_origins ch ≤ hit_votes frame_origins w) ∧
        hb ∈ all_hits frame_origins ∧ hb.channel_id = some w ∧
        (∀ h2 ∈ all_hits frame_origins, h2.channel_id = some w →
          h2.confidence ≤ hb.confidence) ∧
        combine_frame_origins frame_origins =
          found_origin hb (hit_votes frame_origins w)) := by
  have hkeys := count_keys_inv (all_hits frame_origins) [] (by simp) (by simp)
  rw [← channel_counts] at hkeys
  constructor
  · intro hle
    have hlt : (best_channel_count (channel_counts (all_hits frame_origins))).2 < 2 := by
      rcases best_fold_cases (channel_counts (all_hits frame_origins)) (none, 0)
        with h | ⟨p, hp, h⟩
      · rw [best_channel_count, h]; exact Nat.zero_lt_two
      · have hkey : p.1 ∈ (channel_counts (all_hits frame_origins)).map Prod.fst :=
          List.mem_map.mpr ⟨p, hp, rfl⟩
        have hkne : p.1 ≠ "" := hkeys.2 p.1 hkey
        have hcv : count_val (channel_counts (all_hits frame_origins)) p.1 = p.2 :=
          count_val_of_mem _ hkeys.1 p.1 p.2 hp
        have hv : votes (all_hits frame_origins) p.1 = p.2 := by
          rw [← count_val_channel_counts (all_hits frame_origins) p.1 hkne]
          exact hcv
        have hle1 : hit_votes frame_origins p.1 ≤ 1 := hle p.1
        rw [hit_votes_eq frame_origins p.1 hkne, hv] at hle1
        rw [best_channel_count, h]
        omega
    simp only [combine_frame_origins]
    rw [if_pos hlt]
  · intro ch0 h2v
    have hch0 : ch0 ≠ "" := by
      intro hz
      rw [hz] at h2v
      simp [hit_votes] at h2v
    have hcv0 : count_val (channel_counts (all_hits frame_origins)) ch0 =
        votes (all_hits frame_origins) ch0 :=
      count_val_channel_counts (all_hits frame_origins) ch0 hch0
    have hv0 : votes (all_hits frame_origins) ch0 = hit_votes frame_origins ch0 :=
      (hit_votes_eq frame_origins ch0 hch0).symm
    have hpos0 : 1 ≤ count_val (channel_counts (all_hits frame_origins)) ch0 := by omega
    have hmem0 := mem_of_count_val_pos (channel_counts (all_hits frame_origins)) ch0 hpos0
    have hge0 := best_fold_ge_mem (channel_counts (all_hits frame_origins)) (none, 0)
      _ hmem0
    have hb2 : 2 ≤ (best_channel_count (channel_counts (all_hits frame_origins))).2 := by
      rw [best_channel_count]
      simp only at hge0
      omega
    rcases best_fold_cases (channel_counts (all_hits frame_origins)) (none, 0)
      with hcase | ⟨p, hp, hcase⟩
    · rw [best_channel_count, hcase] at hb2
      simp at hb2
    · have hbest : best_channel_count (channel_counts (all_hits frame_origins)) =
          (some p.1, p.2) := by
        rw [best_channel_count, hcase]
      have hkey : p.1 ∈ (channel_counts (all_hits frame_origins)).map Prod.fst :=
        List.mem_map.mpr ⟨p, hp, rfl⟩
      have hkne : p.1 ≠ "" := hkeys.2 p.1 hkey
      have hcvp : count_val (channel_counts (all_hits frame_origins)) p.1 = p.2 :=
        count_val_of_mem _ hkeys.1 p.1 p.2 hp
      have hvp : votes (all_hits frame_origins) p.1 = p.2 := by
        rw [← count_val_channel_counts (all_hits frame_origins) p.1 hkne]
        exact hcvp
      have h2p : 2 ≤ p.2 := by rw [hbest] at hb2; exact hb2
      have hwv : hit_votes frame_origins p.1 = p.2 := by
        rw [hit_votes_eq frame_origins p.1 hkne]; exact hvp
      have hmax : ∀ ch, hit_votes frame_origins ch ≤ hit_votes frame_origins p.1 := by
        intro ch
        by_cases hchz : ch = ""
        · rw [hchz]; simp [hit_votes, hwv]
        · rw [hit_votes_eq frame_origins ch hchz, hwv]
          by_cases hvz : votes (all_hits frame_origins) ch = 0
          · omega
          · have hposc : 1 ≤ count_val (channel_counts (all_hits frame_origins)) ch := by
              rw [count_val_channel_counts (all_hits frame_origins) ch hchz]
              omega
            have hmemc := mem_of_count_val_pos
              (channel_counts (all_hits frame_origins)) ch hposc
            have hgec := best_fold_ge_mem (channel_counts (all_hits frame_origins))
              (none, 0) _ hmemc
            rw [← best_channel_count, hbest] at hgec
            simp only at hgec
            rw [count_val_channel_counts (all_hits frame_origins) ch hchz] at hgec
            exact hgec
      have hv1 : 1 ≤ votes (all_hits frame_origins) p.1 := by omega
      obtain ⟨hw0, hw0mem, hw0ch⟩ :=
        exists_hit_of_votes_pos (all_hits frame_origins) p.1 hv1
      rcases best_hit_fold p.1 (all_hits frame_origins) none
        with ⟨_, hforall⟩ | ⟨hb, heq, hbmem, hbw, hmaxc, _⟩
      · obtain ⟨b, hbx, _⟩ := hforall hw0 hw0mem hw0ch
        cases hbx
      · have hbfilter : hb ∈ (all_hits frame_origins).filter
            (fun h => h.channel_id == some p.1) :=
          List.mem_filter.mpr ⟨hbmem, by simpa using hbw⟩
        have hble : hb.confidence ≤
            ((all_hits frame_origins).filter
              (fun h => h.channel_id == some p.1)).foldl
              (fun a h => max a h.confidence) 0 :=
          foldl_max_conf_mem _ 0 hb hbfilter
        have hfle : ((all_hits frame_origins).filter
              (fun h => h.channel_id == some p.1)).foldl
              (fun a h => max a h.confidence) 0 ≤ hb.confidence := by
          refine foldl_max_conf_le _ 0 hb.confidence (hconf hb hbmem) ?_
          intro x hx
          obtain ⟨hxmem, hxpred⟩ := List.mem_filter.mp hx
          exact hmaxc x hxmem (by simpa using hxpred)
        have hcfeq : lookup_conf (channel_confidence (all_hits frame_origins)) p.1 =
            hb.confidence := by
          rw [lookup_conf_eq_conf_val,
            conf_val_channel_confidence (all_hits frame_origins) p.1 hkne]
          exact le_antisymm hfle hble
        refine ⟨p.1, hb, by omega, hmax, hbmem, hbw, ?_, ?_⟩
        · intro h2 h2mem h2w
          exact hmaxc h2 h2mem h2w
        · simp only [combine_frame_origins]
          rw [hbest]
          simp only
          rw [if_neg (by omega)]
          have hbh : best_hit_for (all_hits frame_origins) p.1 = some hb := heq
          rw [hcfeq, hbh, hwv]
          rfl

/-- C2 counterexample: the claim as stated counts frames, but the code counts
hits.  With a single frame carrying two hits of the same channel, only one
frame voted for chanA, yet the combiner declares a found origin with
matching_frames 2 instead of the claimed found = false. -/
theorem combine_frame_origins_counterexample :
    frames_voted_for one_frame_two_hits "chanA" = 1 ∧
    ((combine_frame_origins one_frame_two_hits).origin.getD {}).found = true ∧
    ((combine_frame_origins one_frame_two_hits).origin.getD {}).matching_frames =
      some 2 := by
  refine ⟨by decide, ?_, ?_⟩ <;> decide

/-- C2 witness: the amended characterization applied at the concrete
single-frame, two-hit input. -/
theorem combine_frame_origins_correct_witness :
    ∃ w hb,
      2 ≤ hit_votes one_frame_two_hits w ∧
      (∀ ch, hit_votes one_frame_two_hits ch ≤ hit_votes one_frame_two_hits w) ∧
      hb ∈ all_hits one_frame_two_hits ∧ hb.channel_id = some w ∧
      (∀ h2 ∈ all_hits one_frame_two_hits, h2.channel_id = some w →
        h2.confidence ≤ hb.confidence) ∧
      combine_frame_origins one_frame_two_hits =
        found_origin hb (hit_votes one_frame_two_hits w) :=
  (combine_frame_origins_correct one_frame_two_hits
    (by intro h hm; fin_cases hm <;> norm_num)).2 "chanA" (by decide)

/- ========================= Theorems: claim C4 =========================== -/

theorem upd_earliest_keys (S : List (String × RankedResult)) (ch : String)
    (r : RankedResult) :
    (upd_earliest S ch r).map Prod.fst =
      if ch ∈ S.map Prod.fst then S.map Prod.fst else S.map Prod.fst ++ [ch] := by
  induction S with
  | nil => simp [upd_earliest]
  | cons p t ih =>
    obtain ⟨c, cur⟩ := p
    by_cases hc : c = ch
    · subst hc
      by_cases hlt : tsStr r < tsStr cur
      · simp [upd_earliest, hlt]
      · simp [upd_earliest, hlt]
    · have hne : ch ≠ c := fun h => hc h.symm
      by_cases hmem : ch ∈ t.map Prod.fst
      · simp [upd_earliest, hc, ih, hmem, hne]
      · simp [upd_earliest, hc, ih, hmem, hne]

theorem upd_earliest_mem (S : List (String × RankedResult)) (ch : String)
    (r : RankedResult) (hnd : (S.map Prod.fst).Nodup)
    (p : String × RankedResult) (hp : p ∈ upd_earliest S ch r) :
    (p ∈ S ∧ p.1 ≠ ch) ∨
    (p ∈ S ∧ p.1 = ch ∧ tsStr p.2 ≤ tsStr r) ∨
    (p = (ch, r) ∧
      (ch ∉ S.map Prod.fst ∨ ∃ cur, (ch, cur) ∈ S ∧ tsStr r < tsStr cur)) := by
  induction S with
  | nil =>
    simp only [upd_earliest, List.mem_singleton] at hp
    exact Or.inr (Or.inr ⟨hp, Or.inl (by simp)⟩)
  | cons q t ih =>
    obtain ⟨c, cur⟩ := q
    simp only [List.map_cons, List.nodup_cons] at hnd
    by_cases hc : c = ch
    · subst hc
      by_cases hlt : tsStr r < tsStr cur
      · rw [upd_earliest, if_pos rfl, if_pos hlt] at hp
        rcases List.mem_cons.mp hp with rfl | hp2
        · exact Or.inr (Or.inr ⟨rfl, Or.inr ⟨cur, List.mem_cons_self _ _, hlt⟩⟩)
        · left
          refine ⟨List.mem_cons_of_mem _ hp2, ?_⟩
          intro hkey
          exact hnd.1 (List.mem_map.mpr ⟨p, hp2, hkey⟩)
      · rw [upd_earliest, if_pos rfl, if_neg hlt] at hp
        rcases List.mem_cons.mp hp with rfl | hp2
        · exact Or.inr (Or.inl ⟨List.mem_cons_self _ _, rfl, not_lt.mp hlt⟩)
        · left
          refine ⟨List.mem_cons_of_mem _ hp2, ?_⟩
          intro hkey
          exact hnd.1 (List.mem_map.mpr ⟨p, hp2, hkey⟩)
    · rw [upd_earliest, if_neg hc] at hp
      rcases List.mem_cons.mp hp with rfl | hp2
      · exact Or.inl ⟨List.mem_cons_self _ _, hc⟩
      · rcases ih hnd.2 hp2 with ⟨hm, hne⟩ | ⟨hm, hkey, hle⟩ | ⟨heqp, hcase⟩
        · exact Or.inl ⟨List.mem_cons_of_mem _ hm, hne⟩
        · exact Or.inr (Or.inl ⟨List.mem_cons_of_mem _ hm, hkey, hle⟩)
        · refine Or.inr (Or.inr ⟨heqp, ?_⟩)
          rcases hcase with hnm | ⟨cur2, hcur2, hlt2⟩
          · left
            simp only [List.map_cons, List.mem_cons]
            rintro (hceq | hmm)
            · exact hc hceq.symm
            · exact hnm hmm
          · exact Or.inr ⟨cur2, List.mem_cons_of_mem _ hcur2, hlt2⟩

theorem group_step_inv (processed : List RankedResult)
    (S : List (String × RankedResult)) (r : RankedResult)
    (hinv : group_inv processed S) : group_inv (processed ++ [r]) (group_step S r) := by
  obtain ⟨hnd, hcov, hent⟩ := hinv
  by_cases hguard : (truthyStr r.channel_id && truthyStr r.timestamp) = true
  · obtain ⟨hch, hts⟩ := Bool.and_eq_true .. ▸ hguard
    have hkeyr := truthy_channel_eq r.channel_id hch
    rw [group_step, if_pos hguard]
    refine ⟨?_, ?_, ?_⟩
    · rw [upd_earliest_keys]
      by_cases hmem : r.channel_id.getD "" ∈ S.map Prod.fst
      · rw [if_pos hmem]; exact hnd
      · rw [if_neg hmem, List.nodup_append]
        refine ⟨hnd, List.nodup_singleton _, ?_⟩
        intro a ha hamem
        rw [List.mem_singleton] at hamem
        subst hamem
        exact hmem ha
    · intro x hx htx1 htx2
      rw [upd_earliest_keys]
      rcases List.mem_append.mp hx with hx1 | hx1
      · have hold := hcov x hx1 htx1 htx2
        by_cases hmem : r.channel_id.getD "" ∈ S.map Prod.fst
        · rw [if_pos hmem]; exact hold
        · rw [if_neg hmem]; exact List.mem_append.mpr (Or.inl hold)
      · rw [List.mem_singleton.mp hx1]
        by_cases hmem : r.channel_id.getD "" ∈ S.map Prod.fst
        · rw [if_pos hmem]; exact hmem
        · rw [if_neg hmem]
          exact List.mem_append.mpr (Or.inr (List.mem_singleton.mpr rfl))
    · intro p hp
      rcases upd_earliest_mem S (r.channel_id.getD "") r hnd p hp
        with ⟨hm, hne⟩ | ⟨hm, hkey, hle⟩ | ⟨heqp, hcase⟩
      · obtain ⟨hpch, hpne, hpts, ⟨P1, P2, hsplit, hstrict⟩, hmin⟩ := hent p hm
        refine ⟨hpch, hpne, hpts, ⟨P1, P2 ++ [r], ?_, hstrict⟩, ?_⟩
        · rw [hsplit, List.append_assoc, List.cons_append]
        · intro x hx hxch hxts
          rcases List.mem_append.mp hx with hx1 | hx1
          · exact hmin x hx1 hxch hxts
          · rw [List.mem_singleton.mp hx1] at hxch
            exfalso
            apply hne
            rw [hkeyr.1] at hxch
            exact (Option.some_inj.mp hxch).symm
      · obtain ⟨hpch, hpne, hpts, ⟨P1, P2, hsplit, hstrict⟩, hmin⟩ := hent p hm
        refine ⟨hpch, hpne, hpts, ⟨P1, P2 ++ [r], ?_, hstrict⟩, ?_⟩
        · rw [hsplit, List.append_assoc, List.cons_append]
        · intro x hx hxch hxts
          rcases List.mem_append.mp hx with hx1 | hx1
          · exact hmin x hx1 hxch hxts
          · rw [List.mem_singleton.mp hx1]
            exact hle
      · subst heqp
        have hstrict : ∀ x ∈ processed, x.channel_id = some (r.channel_id.getD "") →
            truthyStr x.timestamp = true → tsStr r < tsStr x := by
          intro x hx hxch hxts
          rcases hcase with hnm | ⟨cur, hcur, hlt⟩
          · exfalso
            apply hnm
            have htx1 : truthyStr x.channel_id = true := by
              rw [hxch]
              simp only [truthyStr, bne_iff_ne, ne_eq]
              exact fun h => hkeyr.2 h
            have := hcov x hx htx1 hxts
            have hgd : x.channel_id.getD "" = r.channel_id.getD "" := by
              simp [hxch]
            rw [hgd] at this
            exact this
          · obtain ⟨hcch, hcne, hcts, _, hcmin⟩ := hent (r.channel_id.getD "", cur) hcur
            exact lt_of_lt_of_le hlt (hcmin x hx hxch hxts)
        refine ⟨hkeyr.1, hkeyr.2, hts, ⟨processed, [], rfl, hstrict⟩, ?_⟩
        intro x hx hxch hxts
        rcases List.mem_append.mp hx with hx1 | hx1
        · exact le_of_lt (hstrict x hx1 hxch hxts)
        · rw [List.mem_singleton.mp hx1]
  · rw [group_step, if_neg hguard]
    refine ⟨hnd, ?_, ?_⟩
    · intro x hx htx1 htx2
      rcases List.mem_append.mp hx with hx1 | hx1
      · exact hcov x hx1 htx1 htx2
      · rw [List.mem_singleton.mp hx1] at htx1 htx2
        exfalso
        exact hguard (by rw [htx1, htx2]; rfl)
    · intro p hp
      obtain ⟨hpch, hpne, hpts, ⟨P1, P2, hsplit, hstrict⟩, hmin⟩ := hent p hp
      refine ⟨hpch, hpne, hpts, ⟨P1, P2 ++ [r], ?_, hstrict⟩, ?_⟩
      · rw [hsplit, List.append_assoc, List.cons_append]
      · intro x hx hxch hxts
        rcases List.mem_append.mp hx with hx1 | hx1
        · exact hmin x hx1 hxch hxts
        · rw [List.mem_singleton.mp hx1] at hxch hxts ⊢
          exfalso
          apply hguard
          have htr : truthyStr r.channel_id = true := by
            rw [hxch]
            simp only [truthyStr, bne_iff_ne, ne_eq]
            exact hpne
          rw [htr, hxts]
          rfl

theorem group_fold_inv (l : List RankedResult) (processed : List RankedResult)
    (S : List (String × RankedResult)) (hinv : group_inv processed S) :
    group_inv (processed ++ l) (l.foldl group_step S) := by
  induction l generalizing processed S with
  | nil => simpa using hinv
  | cons r t ih =>
    have hstep := group_step_inv processed S r hinv
    have := ih (processed ++ [r]) (group_step S r) hstep
    rw [List.append_assoc] at this
    simpa using this

theorem group_sources_inv (results : List RankedResult) :
    group_inv results (group_sources results) := by
  have h0 : group_inv [] [] := by
    refine ⟨by simp, ?_, ?_⟩
    · intro r hr; cases hr
    · intro p hp; cases hp
  have := group_fold_inv results [] [] h0
  simpa [group_sources] using this

/-- C4 (amended): origin derivation.  For every merged result list, the
origins output contains at most 3 entries, is sorted ascending by the
timestamp sort key, has pairwise distinct channel ids, and every entry is a
result with truthy channel id and truthy timestamp whose timestamp is
minimal among the same-channel timestamped results, the first such minimal
result in list order.  Conversely the grouping is complete: every result
with a truthy channel id and a truthy timestamp contributes a grouped entry
of its channel, the output length is exactly the number of grouped channels
capped at 3, and when at most 3 channels were grouped every such channel
appears in the output.  Results with no channel id or no timestamp are
excluded entirely (they are not sorted last). -/
theorem derive_origins_correct (results : List RankedResult) :
    (derive_origins results).length ≤ 3
  ∧ List.Sorted origin_le (derive_origins results)
  ∧ List.Pairwise (fun a b => a.channel_id ≠ b.channel_id) (derive_origins results)
  ∧ (∀ e ∈ derive_origins results,
      e ∈ results ∧ truthyStr e.channel_id = true ∧ truthyStr e.timestamp = true ∧
      (∀ r ∈ results, r.channel_id = e.channel_id → truthyStr r.timestamp = true →
        tsStr e ≤ tsStr r) ∧
      (∃ P1 P2, results = P1 ++ e :: P2 ∧
        (∀ r ∈ P1, r.channel_id = e.channel_id → truthyStr r.timestamp = true →
          tsStr e < tsStr r)))
  ∧ (∀ r ∈ results, truthyStr r.channel_id = true → truthyStr r.timestamp = true →
      ∃ p ∈ group_sources results,
        p.1 = r.channel_id.getD "" ∧ p.2.channel_id = r.channel_id)
  ∧ (derive_origins results).length = min 3 (group_sources results).length
  ∧ ((group_sources results).length ≤ 3 →
      ∀ r ∈ results, truthyStr r.channel_id = true → truthyStr r.timestamp = true →
        ∃ e ∈ derive_origins results, e.channel_id = r.channel_id) := by
  obtain ⟨hnd, hcov, hent⟩ := group_sources_inv results
  have hperm := List.perm_insertionSort origin_le ((group_sources results).map Prod.snd)
  have hlen : (((group_sources results).map Prod.snd).insertionSort origin_le).length =
      (group_sources results).length := by
    rw [hperm.length_eq, List.length_map]
  have hgrouped : ∀ r ∈ results, truthyStr r.channel_id = true →
      truthyStr r.timestamp = true →
      ∃ p ∈ group_sources results,
        p.1 = r.channel_id.getD "" ∧ p.2.channel_id = r.channel_id := by
    intro r hr h1 h2
    obtain ⟨p, hp, hfst⟩ := List.mem_map.mp (hcov r hr h1 h2)
    have hch := (hent p hp).1
    refine ⟨p, hp, hfst, ?_⟩
    rw [hch, hfst]
    exact ((truthy_channel_eq r.channel_id h1).1).symm
  refine ⟨?_, ?_, ?_, ?_, hgrouped, ?_, ?_⟩
  · rw [derive_origins]
    exact List.length_take_le 3 _
  · rw [derive_origins]
    exact List.Pairwise.sublist (List.take_sublist 3 _)
      (List.sorted_insertionSort origin_le _)
  · have hkeys : (group_sources results).Pairwise (fun p q => p.1 ≠ q.1) :=
      List.pairwise_map.mp hnd
    have hvals : ((group_sources results).map Prod.snd).Pairwise
        (fun a b => a.channel_id ≠ b.channel_id) := by
      rw [List.pairwise_map]
      refine hkeys.imp_of_mem ?_
      intro p q hpmem hqmem hne
      have hp1 := (hent p hpmem).1
      have hq1 := (hent q hqmem).1
      rw [hp1, hq1]
      intro hcon
      exact hne (Option.some_inj.mp hcon)
    have hsymm : Symmetric (fun a b : RankedResult => a.channel_id ≠ b.channel_id) := by
      intro x y h
      exact Ne.symm h
    have hsorted : (((group_sources results).map Prod.snd).insertionSort
        origin_le).Pairwise (fun a b => a.channel_id ≠ b.channel_id) :=
      (hperm.pairwise_iff @hsymm).mpr hvals
    rw [derive_origins]
    exact List.Pairwise.sublist (List.take_sublist 3 _) hsorted
  · intro e hmem
    have hmem1 : e ∈ ((group_sources results).map Prod.snd).insertionSort origin_le :=
      List.take_subset 3 _ (by rw [derive_origins] at hmem; exact hmem)
    have hmem2 : e ∈ (group_sources results).map Prod.snd := hperm.mem_iff.mp hmem1
    obtain ⟨p, hpS, rfl⟩ := List.mem_map.mp hmem2
    obtain ⟨hpch, hpne, hpts, ⟨P1, P2, hsplit, hstrict⟩, hmin⟩ := hent p hpS
    refine ⟨?_, ?_, hpts, ?_, ⟨P1, P2, hsplit, ?_⟩⟩
    · rw [hsplit]
      exact List.mem_append.mpr (Or.inr (List.mem_cons_self _ _))
    · rw [hpch]
      simp only [truthyStr, bne_iff_ne, ne_eq]
      exact hpne
    · intro r hr hrch hrts
      refine hmin r hr ?_ hrts
      rw [hrch, hpch]
    · intro r hr hrch hrts
      refine hstrict r hr ?_ hrts
      rw [hrch, hpch]
  · rw [derive_origins, List.length_take, hlen]
  · intro h3 r hr h1 h2
    obtain ⟨p, hp, _, hpch⟩ := hgrouped r hr h1 h2
    have hmemsnd : p.2 ∈ (group_sources results).map Prod.snd :=
      List.mem_map.mpr ⟨p, hp, rfl⟩
    have hmemsorted : p.2 ∈
        ((group_sources results).map Prod.snd).insertionSort origin_le :=
      hperm.mem_iff.mpr hmemsnd
    have htake : (((group_sources results).map Prod.snd).insertionSort
        origin_le).take 3 =
        ((group_sources results).map Prod.snd).insertionSort origin_le := by
      apply List.take_of_length_le
      rw [hlen]
      exact h3
    refine ⟨p.2, ?_, hpch⟩
    rw [derive_origins, htake]
    exact hmemsorted

/-- C4 counterexample: the claim sorts entries with no timestamp last, but
the code drops them.  On a single result with a channel id and no timestamp
the code yields no origins while the claim's reading yields that entry. -/
theorem derive_origins_counterexample :
    derive_origins [no_ts_result] = [] ∧
    derive_origins_claimed [no_ts_result] = [no_ts_result] ∧
    derive_origins [no_ts_result] ≠ derive_origins_claimed [no_ts_result] := by
  refine ⟨by decide, by decide, by decide⟩

/-- C4 witness: the amended characterization applied at the spec's
channel-earliest example, together with the concrete nonempty output the
code computes on it, channel A's January entry before channel B's March
entry. -/
theorem derive_origins_correct_witness :
    derive_origins [chan_a_feb, chan_a_jan, chan_b_mar] = [chan_a_jan, chan_b_mar] ∧
    (derive_origins [chan_a_feb, chan_a_jan, chan_b_mar]).length ≤ 3 ∧
    (∀ e ∈ derive_origins [chan_a_feb, chan_a_jan, chan_b_mar],
      e ∈ [chan_a_feb, chan_a_jan, chan_b_mar] ∧
      truthyStr e.channel_id = true ∧ truthyStr e.timestamp = true ∧
      (∀ r ∈ [chan_a_feb, chan_a_jan, chan_b_mar], r.channel_id = e.channel_id →
        truthyStr r.timestamp = true → tsStr e ≤ tsStr r) ∧
      (∃ P1 P2, [chan_a_feb, chan_a_jan, chan_b_mar] = P1 ++ e :: P2 ∧
        (∀ r ∈ P1, r.channel_id = e.channel_id → truthyStr r.timestamp = true →
          tsStr e < tsStr r))) := by
  refine ⟨?_, (derive_origins_correct [chan_a_feb, chan_a_jan, chan_b_mar]).1,
    (derive_origins_correct [chan_a_feb, chan_a_jan, chan_b_mar]).2.2.2.1⟩
  have h1 : ("2023-01-01" : String) < "2023-02-01" := by
    rw [String.lt_iff_toList_lt]
    decide
  have h2 : ("2023-01-01" : String) ≤ "2023-03-01" := by
    rw [String.le_iff_toList_le]
    decide
  have h3 : ¬ (("A" : String) = "B") := by decide
  simp [derive_origins, group_sources, group_step, upd_earliest, truthyStr,
    tsStr, ts_or_sentinel, origin_le, chan_a_feb, chan_a_jan, chan_b_mar,
    List.insertionSort, List.orderedInsert, h1, h2, h3]

/- ========================= Theorems: claim C5 =========================== -/

theorem visual_gpu_le_one (env : VisualEnv) :
    (process_visual_frames env).gpu_submit_calls ≤ 1 := by
  unfold process_visual_frames
  repeat' split
  all_goals try simp
  all_goals repeat' split
  all_goals simp

theorem process_video_gpu_le_one (fp url : Option String) (j : String)
    (env : PipelineEnv) :
    (process_video fp url j env).gpu_submit_calls ≤ 1 := by
  unfold process_video
  repeat' split
  all_goals simp [visual_gpu_le_one]

/-- C5 (amended): idempotent caching.  For the router, a second search with
the cache entry the first run wrote returns the bit-identical cached
response, leaves the cache unchanged and performs no upstream calls, while
the first run queries the local index exactly once and the external search
at most once.  For the video pipeline, once a result has been cached under
the video hash, a second run returns it (wrapped with the new job id and a
from_cache marker) with zero upstream calls, and GPU submission happens at
most once per run; the local index, however, is queried once per frame
embedding during the first resolution, not at most once overall. -/
theorem idempotent_caching_correct
    (query query_type qh : String) (force : Bool) (renv : RouterEnv)
    (p : String) (url : Option String) (j1 j2 : String) (venv : PipelineEnv)
    (md h : String) (r : VideoResult)
    (hmd : venv.metadata = .ok md) (hh : venv.video_hash = .ok h)
    (hcache : (process_video (some p) url j1 venv).cache_after = some r) :
    ((router_search (router_search none query query_type qh force renv).cache_after
        query query_type qh force renv).response =
      (router_search none query query_type qh force renv).response
    ∧ (router_search (router_search none query query_type qh force renv).cache_after
        query query_type qh force renv).cache_after =
      (router_search none query query_type qh force renv).cache_after
    ∧ (router_search (router_search none query query_type qh force renv).cache_after
        query query_type qh force renv).calls = ⟨0, 0, 0⟩
    ∧ (router_search none query query_type qh force renv).calls.vector_search = 1
    ∧ (router_search none query query_type qh force renv).calls.perplexity ≤ 1)
  ∧ ((process_video (some p) url j2
        { venv with cache_entry := some r }).result = .cached j2 r
    ∧ (process_video (some p) url j2
        { venv with cache_entry := some r }).cache_after = some r
    ∧ (process_video (some p) url j2
        { venv with cache_entry := some r }).vector_calls = 0
    ∧ (process_video (some p) url j2
        { venv with cache_entry := some r }).gpu_submit_calls = 0
    ∧ (process_video (some p) url j2
        { venv with cache_entry := some r }).audio_calls = 0
    ∧ (process_video (some p) url j1 venv).gpu_submit_calls ≤ 1) := by
  constructor
  · refine ⟨rfl, rfl, rfl, rfl, ?_⟩
    by_cases hn : need_perplexity force renv.local_results = true
    · simp [router_search, hn]
    · simp only [Bool.not_eq_true] at hn
      simp [router_search, hn]
  · refine ⟨?_, ?_, ?_, ?_, ?_, process_video_gpu_le_one (some p) url j1 venv⟩
    all_goals simp [process_video, hmd, hh]

/-- C5 counterexample: the claim bounds local-index invocations by one across
two resolutions, but a single video resolution with three frame embeddings
already queries the vector index three times. -/
theorem idempotent_caching_counterexample :
    (process_video (some "video.mp4") none "job1" three_embedding_env).vector_calls = 3
    ∧ ¬ ((process_video (some "video.mp4") none "job1"
          three_embedding_env).vector_calls ≤ 1) := by
  refine ⟨by decide, by decide⟩

/-- C5 witness: the idempotence characterization applied at the concrete
three-embedding environment after its first run cached a result. -/
theorem idempotent_caching_correct_witness :
    (process_video (some "video.mp4") none "job2"
      { three_embedding_env with
        cache_entry := some ((process_video (some "video.mp4") none "job1"
          three_embedding_env).cache_after.getD
            { job_id := "", metadata := "", audio_origin := none,
              visual_origin := none, is_composite := false, audio_confidence := 0,
              visual_confidence := 0, hash := "" }) }).vector_calls = 0 := by
  have hc : (process_video (some "video.mp4") none "job1"
      three_embedding_env).cache_after = some ((process_video (some "video.mp4") none
        "job1" three_embedding_env).cache_after.getD
          { job_id := "", metadata := "", audio_origin := none,
            visual_origin := none, is_composite := false, audio_confidence := 0,
            visual_confidence := 0, hash := "" }) := by
    rfl
  exact (idempotent_caching_correct "q" "light" "qh" false
    ⟨[], none⟩ "video.mp4" none "job1" "job2" three_embedding_env
    "meta" "hash1" _ rfl rfl hc).2.2.2.1

/- ========================= Theorems: claim C9 =========================== -/

/-- C9 (amended): cleanup.  In process_video the visual branch deletes the
extracted frame files on every exit path, including GPU-submission failure,
where it returns an error result; the end-of-run cleanup list is always a
subset of the files actually deleted and contains exactly the downloaded
file when a URL was downloaded; the extracted audio file is deleted when the
audio pipeline returns normally.  Uploaded frame artifacts, however, are
never deleted on any path. -/
theorem cleanup_correct :
    (∀ venv : VisualEnv,
        (process_visual_frames venv).deleted_frames = venv.keyframes ∧
        (process_visual_frames venv).deleted_uploads = [])
  ∧ (∀ (venv : VisualEnv) (bj : SubmitResult), venv.submit = .ok bj →
        bj.success = false → venv.keyframes.isEmpty = false →
        (venv.keyframes.filterMap venv.upload).isEmpty = false →
        (process_visual_frames venv).result.error =
          some "Failed to submit GPU batch job" ∧
        (process_visual_frames venv).deleted_frames = venv.keyframes)
  ∧ (∀ (fp url : Option String) (j : String) (env : PipelineEnv),
        (process_video fp url j env).cleanup_files ⊆
          (process_video fp url j env).deleted_files)
  ∧ (∀ (u j : String) (env : PipelineEnv) (d : String), env.download = some d →
        (process_video none (some u) j env).cleanup_files = [d])
  ∧ (∀ (aenv : AudioEnv) (ap : String) (res : BranchResult),
        aenv.extract_audio = some ap → aenv.process_audio = .ok res →
        (process_audio_track aenv).deleted_files = [ap]) := by
  refine ⟨?_, ?_, ?_, ?_, ?_⟩
  · intro venv
    unfold process_visual_frames
    repeat' split
    all_goals try simp
    all_goals repeat' split
    all_goals simp
  · intro venv bj hsub hbs hk hu
    simp [process_visual_frames, hsub, hbs, hk, hu]
  · intro fp url j env
    unfold process_video
    repeat' split
    all_goals intro x hx
    all_goals try simp_all
    all_goals repeat' split
    all_goals simp_all
  · intro u j env d hdl
    simp [process_video, hdl]
    cases hm : env.metadata <;> cases hh2 : env.video_hash <;>
      cases hc : env.cache_entry <;> simp [hm, hh2, hc]
  · intro aenv ap res hex hok
    simp [process_audio_track, hex, hok]

/-- C9 counterexample: cleanup does not happen on every exit path.  After the
GPU submission fails, the uploaded frame artifact is never deleted (there is
no storage deletion anywhere in the pipeline), and the progress variant does
not even delete the locally extracted frame file. -/
theorem cleanup_counterexample :
    (process_visual_frames upload_then_fail_env).uploaded_frames = ["uploaded1"]
    ∧ (process_visual_frames upload_then_fail_env).deleted_uploads = []
    ∧ "uploaded1" ∉ (process_visual_frames upload_then_fail_env).deleted_uploads
    ∧ "frame1.jpg" ∉ (process_video_with_progress (some "v.mp4") none "job1"
        progress_fail_env).deleted_files
    ∧ (process_video_with_progress (some "v.mp4") none "job1"
        progress_fail_env).deleted_uploads = [] := by
  refine ⟨by decide, by decide, by decide, by decide, by decide⟩

/-- C9 witness: the amended cleanup characterization applied at the concrete
upload-then-fail environment. -/
theorem cleanup_correct_witness :
    (process_visual_frames upload_then_fail_env).result.error =
      some "Failed to submit GPU batch job" ∧
    (process_visual_frames upload_then_fail_env).deleted_frames =
      upload_then_fail_env.keyframes :=
  cleanup_correct.2.1 upload_then_fail_env
    { success := false, error := some "quota exceeded" }
    rfl rfl rfl (by decide)

/- ========================= Theorems: claim C10 ========================== -/

/-- C10: a caller-supplied file is preserved.  In both process_video and
process_video_with_progress, when a local file_path is passed directly, the
temp-file list the end-of-run cleanup iterates stays empty, so the supplied
file is never deleted by the cleanup; only a downloaded file is placed on
that list, and then the cleanup deletes exactly it. -/
theorem caller_file_preserved :
    (∀ (p : String) (url : Option String) (j : String) (env : PipelineEnv),
        (process_video (some p) url j env).cleanup_files = [])
  ∧ (∀ (p : String) (url : Option String) (j : String) (env : PipelineEnv),
        p ∉ (process_video (some p) url j env).cleanup_files)
  ∧ (∀ (u j : String) (env : PipelineEnv) (d : String), env.download = some d →
        (process_video none (some u) j env).cleanup_files = [d])
  ∧ (∀ (u j : String) (env : PipelineEnv), env.download = none →
        (process_video none (some u) j env).cleanup_files = [])
  ∧ (∀ (p : String) (url : Option String) (j : String) (penv : ProgressEnv),
        (process_video_with_progress (some p) url j penv).cleanup_files = [])
  ∧ (∀ (u j : String) (penv : ProgressEnv) (d : String), penv.download = some d →
        (process_video_with_progress none (some u) j penv).cleanup_files = [d]) := by
  refine ⟨?_, ?_, ?_, ?_, ?_, ?_⟩
  · intro p url j env
    cases hm : env.metadata <;> cases hh2 : env.video_hash <;>
      cases hc : env.cache_entry <;> simp [process_video, hm, hh2, hc]
  · intro p url j env
    cases hm : env.metadata <;> cases hh2 : env.video_hash <;>
      cases hc : env.cache_entry <;> simp [process_video, hm, hh2, hc]
  · intro u j env d hdl
    cases hm : env.metadata <;> cases hh2 : env.video_hash <;>
      cases hc : env.cache_entry <;> simp [process_video, hdl, hm, hh2, hc]
  · intro u j env hdl
    simp [process_video, hdl]
  · intro p url j penv
    cases hm : penv.metadata <;> cases hh2 : penv.video_hash <;>
      cases hc : penv.cache_entry <;>
        simp [process_video_with_progress, hm, hh2, hc] <;>
          repeat' split <;> try simp_all
  · intro u j penv d hdl
    cases hm : penv.metadata <;> cases hh2 : penv.video_hash <;>
      cases hc : penv.cache_entry <;>
        simp [process_video_with_progress, hdl, hm, hh2, hc] <;>
          repeat' split <;> try simp_all

/-- C10 witness: the preservation statement applied at a concrete local file
and at a concrete downloaded file. -/
theorem caller_file_preserved_witness :
    "mine.mp4" ∉ (process_video (some "mine.mp4") none "j1" download_env).cleanup_files
    ∧ (process_video none (some "http-url") "j2" download_env).cleanup_files =
      ["downloaded.mp4"] :=
  ⟨caller_file_preserved.2.1 "mine.mp4" none "j1" download_env,
    caller_file_preserved.2.2.1 "http-url" "j2" download_env "downloaded.mp4" rfl⟩

end TraceIt
